import Mathlib

/-!
Verification of the libnice STUN message builder (`src/stun/stunsend.c`,
`src/stun/hmac.c`) and the `NiceAddress` value type (`src/address/address.c`)
against their natural-language specification.

The C code is shallowly embedded: message buffers are lists of bytes
(natural numbers reduced mod 256 at every store and load), in-place writes
become functional updates, machine integers are `Nat` with explicit
reductions, and fallible calls return an error code or `Option` alongside
the updated buffer.

The file has two parts: first the definitions (the embedding), then the
theorems about them.
-/

namespace LibniceStun

/-! ## Part 1 — definitions -/

/-! ### Byte-buffer primitives -/

/-- Read one byte of a buffer; C reads through `uint8_t *`, so the value is
reduced mod 256.  Out-of-range reads (undefined behaviour in C) return 0. -/
def getb (m : List Nat) (i : Nat) : Nat := m.getD i 0 % 256

/-- Store a run of bytes at consecutive indices, truncating each value to a
byte, as a C `memcpy`/`memset` through `uint8_t *` does. -/
def writeBytes : List Nat → Nat → List Nat → List Nat
  | m, _, [] => m
  | m, i, b :: bs => writeBytes (m.set i (b % 256)) (i + 1) bs

/-- Read `n` consecutive bytes starting at index `i`. -/
def readBytes (m : List Nat) (i n : Nat) : List Nat :=
  (List.range n).map (fun k => getb m (i + k))

/-- Read a 16-bit big-endian word, as `stun_getw` does. -/
def readW (m : List Nat) (i : Nat) : Nat := getb m i * 256 + getb m (i + 1)

/-! ### STUN constants

The numeric attribute types, classes and error codes live in `stun-msg.h`,
which is not among the sources at hand; their values are the RFC 5389
values named by the specification. -/

/-- Modelled from the spec: the message size cap, `65535 −` the 20-byte
header overhead (`STUN_MAXMSG` in the missing `stun-msg.h`). -/
def STUN_MAXMSG : Nat := 65515

/-- POSIX `ENOBUFS` (no buffer space available). -/
def ENOBUFS : Nat := 105

/-- POSIX `EINVAL` (invalid argument). -/
def EINVAL : Nat := 22

/-- POSIX `EAFNOSUPPORT` (address family not supported). -/
def EAFNOSUPPORT : Nat := 97

def STUN_REQUEST : Nat := 0
def STUN_INDICATION : Nat := 1
def STUN_RESPONSE : Nat := 2
def STUN_ERROR : Nat := 3

def STUN_USERNAME : Nat := 0x0006
def STUN_MESSAGE_INTEGRITY : Nat := 0x0008
def STUN_ERROR_CODE : Nat := 0x0009
def STUN_UNKNOWN_ATTRIBUTES : Nat := 0x000A
def STUN_REALM : Nat := 0x0014
def STUN_NONCE : Nat := 0x0015
def STUN_FINGERPRINT : Nat := 0x8028

/-! ### Byte utilities from `stunsend.c` -/

/-- `stun_setw`: write a 16-bit value big-endian (high byte, then low byte). -/
def stun_setw (m : List Nat) (i v : Nat) : List Nat :=
  writeBytes m i [v / 256, v]

/-- `stun_length`: the 16-bit big-endian message-length field at offset 2
of the header (attribute bytes only, header excluded). -/
def stun_length (m : List Nat) : Nat := readW m 2

/-- `stun_padding` from `stun-msg.h`, per the spec
`pad_len(n) = (4 − (n mod 4)) mod 4`. -/
def stun_padding (len : Nat) : Nat := (4 - len % 4) % 4

/-- The 12-byte transaction-ID field, `stun_id`: bytes 8..19 of the header. -/
def stun_id (m : List Nat) : List Nat := readBytes m 8 12

/-- Big-endian memory bytes of a 32-bit value (`htonl` as stored). -/
def be32 (v : Nat) : List Nat :=
  [v / 16777216 % 256, v / 65536 % 256, v / 256 % 256, v % 256]

/-! ### Message-type encoding and decoding -/

/-- The first type byte written by `stun_set_type`:
`h[0] = (c >> 1) | ((m >> 6) & 0x3e)`. -/
def stun_type_byte0 (c m : Nat) : Nat := (c >>> 1) ||| ((m >>> 6) &&& 0x3e)

/-- The second type byte written by `stun_set_type`:
`h[1] = ((c << 4) & 0x10) | ((m << 1) & 0xe0) | (m & 0x0f)`. -/
def stun_type_byte1 (c m : Nat) : Nat :=
  ((c <<< 4) &&& 0x10) ||| ((m <<< 1) &&& 0xe0) ||| (m &&& 0x0f)

/-- `stun_set_type` (stunsend.c lines 62-74): pack class and method into
the two type bytes with the RFC 5389 bit layout. -/
def stun_set_type (h : List Nat) (c m : Nat) : List Nat :=
  writeBytes h 0 [stun_type_byte0 c m, stun_type_byte1 c m]

/-- `stun_getw`: the 16-bit big-endian type word at offset 0. -/
def stun_getw (m : List Nat) : Nat := readW m 0

/-- The class bits of a 16-bit type word (RFC 5389 layout). -/
def classOfW (t : Nat) : Nat := ((t &&& 0x0100) >>> 7) ||| ((t &&& 0x0010) >>> 4)

/-- The method bits of a 16-bit type word (RFC 5389 layout). -/
def methodOfW (t : Nat) : Nat :=
  ((t &&& 0x3e00) >>> 2) ||| ((t &&& 0x00e0) >>> 1) ||| (t &&& 0x000f)

/-- Modelled from the spec: `stun_get_class` (declared in the missing
`stun-msg.h`), the inverse of the RFC 5389 type-bit layout used by
`stun_set_type`, which asserts `stun_get_class (h) == c` after encoding. -/
def stun_get_class (m : List Nat) : Nat := classOfW (stun_getw m)

/-- Modelled from the spec: `stun_get_method` (declared in the missing
`stun-msg.h`), the inverse of the RFC 5389 type-bit layout used by
`stun_set_type`, which asserts `stun_get_method (h) == m` after encoding. -/
def stun_get_method (m : List Nat) : Nat := methodOfW (stun_getw m)

/-! ### Header initialization -/

/-- `stun_init` (stunsend.c lines 102-112): zero length field, magic cookie
`21 12 A4 42`, type bytes, then the 12 transaction-ID bytes. -/
def stun_init (msg : List Nat) (c m : Nat) (id : List Nat) : List Nat :=
  writeBytes (stun_set_type (writeBytes msg 0 [0, 0, 0, 0, 0x21, 0x12, 0xA4, 0x42]) c m)
    8 (id.take 12)

/-- `stun_init_request`: class REQUEST with a transaction ID drawn from the
process-global counter source (`stun_make_transid`); the generated ID is an
explicit argument here, making the global-state effect visible. -/
def stun_init_request (req : List Nat) (m : Nat) (id : List Nat) : List Nat :=
  stun_init req STUN_REQUEST m id

/-! ### The append primitive (`stun_append`, stunsend.c lines 158-183)

C mutates the caller's buffer and returns a payload pointer or `NULL`; the
embedding returns the payload offset (or `none`) together with the buffer,
which is unchanged in the `none` case. -/

/-- `stun_append msg msize type length` reserves room for one attribute:
cap `msize` at `STUN_MAXMSG`, fail if `mlen + 24 + length` overflows it,
else write the TLV header at `20 + mlen`, pad with `0x20` bytes, and store
the grown length field. -/
def stun_append (msg : List Nat) (msize type length : Nat) :
    Option Nat × List Nat :=
  let mlen := stun_length msg
  let msize := min msize STUN_MAXMSG
  if mlen + 24 + length > msize then (none, msg)
  else
    let a := 20 + mlen
    let m1 := stun_setw msg a type
    let m2 := stun_setw m1 (a + 2) length
    let m3 := writeBytes m2 (a + 4 + length) (List.replicate (stun_padding length) 0x20)
    let mlen' := mlen + 4 + length + stun_padding length
    (some (a + 4), stun_setw m3 2 mlen')

/-- `stun_append_bytes`: reserve then `memcpy` the payload.  Returns the C
result code (0 or `ENOBUFS`) with the buffer. -/
def stun_append_bytes (msg : List Nat) (msize type : Nat) (data : List Nat) :
    Nat × List Nat :=
  match stun_append msg msize type data.length with
  | (none, m) => (ENOBUFS, m)
  | (some off, m) => (0, writeBytes m off data)

/-- A C string's bytes (no trailing NUL), as `strlen`/`memcpy` see them. -/
def strBytes (s : String) : List Nat := s.data.map (fun c => c.toNat)

/-- `stun_append_string`: append the bytes of a NUL-terminated string. -/
def stun_append_string (msg : List Nat) (msize type : Nat) (str : String) :
    Nat × List Nat :=
  stun_append_bytes msg msize type (strBytes str)

/-- `stun_append_flag`: a zero-length payload. -/
def stun_append_flag (msg : List Nat) (msize type : Nat) : Nat × List Nat :=
  stun_append_bytes msg msize type []

/-- `stun_append32`: `htonl` then append 4 bytes. -/
def stun_append32 (msg : List Nat) (msize type v : Nat) : Nat × List Nat :=
  stun_append_bytes msg msize type (be32 (v % 4294967296))

/-- `stun_append64`: two big-endian 32-bit halves, 8 bytes. -/
def stun_append64 (msg : List Nat) (msize type v : Nat) : Nat × List Nat :=
  stun_append_bytes msg msize type
    (be32 (v / 4294967296 % 4294967296) ++ be32 (v % 4294967296))

/-! ### The error catalog and ERROR-CODE attribute -/

/-- The static reason-phrase table of `stun_strerror` (stunsend.c lines
276-308).  The numeric `stun_error_t` values come from the spec (§4.6). -/
def errTab : List (Nat × String) :=
  [(300, "Try alternate server"),
   (400, "Bad request"),
   (401, "Authorization required"),
   (420, "Unknown attribute"),
   (430, "Authentication expired"),
   (431, "Incorrect username/password"),
   (432, "Username required"),
   (433, "Secure connection required"),
   (434, "Authentication domain required"),
   (435, "Authentication token missing"),
   (436, "Unknown user name"),
   (438, "Authentication token expired"),
   (487, "Role conflict"),
   (500, "Temporary server error"),
   (600, "Unrecoverable failure")]

/-- `stun_strerror`: linear catalog lookup, "Unknown error" by default. -/
def stun_strerror (code : Nat) : String :=
  ((errTab.find? (fun p => p.1 == code)).map Prod.snd).getD "Unknown error"

/-- `stun_append_error` (stunsend.c lines 318-335): payload is two zero
bytes, `code / 100`, `code % 100`, then the reason phrase (no NUL). -/
def stun_append_error (msg : List Nat) (msize code : Nat) : Nat × List Nat :=
  let str := strBytes (stun_strerror code)
  match stun_append msg msize STUN_ERROR_CODE (4 + str.length) with
  | (none, m) => (ENOBUFS, m)
  | (some ptr, m) =>
      let m1 := writeBytes m ptr [0, 0]
      let m2 := writeBytes m1 (ptr + 2) [code / 100, code % 100]
      (0, writeBytes m2 (ptr + 4) str)

/-- `stun_init_error` (stunsend.c lines 352-359): class ERROR header with
the request's method and transaction ID, then an ERROR-CODE attribute. -/
def stun_init_error (ans : List Nat) (msize : Nat) (req : List Nat) (err : Nat) :
    Nat × List Nat :=
  stun_append_error (stun_init ans STUN_ERROR (stun_get_method req) (stun_id req))
    msize err

/-! ### SHA-1, HMAC-SHA1 (`hmac.c` delegates to OpenSSL; the function is
implemented here from FIPS 180, so that `stun_sha1` is executable) -/

/-- Truncate to 32 bits. -/
def w32 (x : Nat) : Nat := x % 4294967296

/-- Rotate a 32-bit value left by `n` (for `x < 2^32`). -/
def rotl (n x : Nat) : Nat := (w32 (x <<< n)) ||| (x >>> (32 - n))

/-- The SHA-1 round functions Ch / Parity / Maj / Parity. -/
def sha1f (t b c d : Nat) : Nat :=
  if t < 20 then (b &&& c) ||| ((b ^^^ 4294967295) &&& d)
  else if t < 40 then b ^^^ c ^^^ d
  else if t < 60 then (b &&& c) ||| (b &&& d) ||| (c &&& d)
  else b ^^^ c ^^^ d

/-- The SHA-1 round constants. -/
def sha1k (t : Nat) : Nat :=
  if t < 20 then 0x5A827999
  else if t < 40 then 0x6ED9EBA1
  else if t < 60 then 0x8F1BBCDC
  else 0xCA62C1D6

/-- A 64-byte block as sixteen big-endian 32-bit words. -/
def blockWords (b : List Nat) : List Nat :=
  (List.range 16).map (fun i =>
    (b.getD (4 * i) 0 % 256) * 16777216 + (b.getD (4 * i + 1) 0 % 256) * 65536 +
    (b.getD (4 * i + 2) 0 % 256) * 256 + b.getD (4 * i + 3) 0 % 256)

/-- Message-schedule extension: append `k` further words `W[t] =
ROTL1 (W[t−3] ⊕ W[t−8] ⊕ W[t−14] ⊕ W[t−16])`. -/
def sha1extend (ws : List Nat) : Nat → List Nat
  | 0 => ws
  | k + 1 =>
      let prev := sha1extend ws k
      let n := prev.length
      prev ++ [rotl 1 (prev.getD (n - 3) 0 ^^^ prev.getD (n - 8) 0 ^^^
        prev.getD (n - 14) 0 ^^^ prev.getD (n - 16) 0)]

/-- The state after `t` SHA-1 rounds. -/
def sha1rounds (W : List Nat) : Nat → Nat × Nat × Nat × Nat × Nat →
    Nat × Nat × Nat × Nat × Nat
  | 0, st => st
  | t + 1, st =>
      match sha1rounds W t st with
      | (a, b, c, d, e) =>
          (w32 (rotl 5 a + sha1f t b c d + e + sha1k t + W.getD t 0),
           a, rotl 30 b, c, d)

/-- One SHA-1 compression-function application. -/
def sha1block (h : List Nat) (blk : List Nat) : List Nat :=
  let W := sha1extend (blockWords blk) 64
  match sha1rounds W 80 (h.getD 0 0, h.getD 1 0, h.getD 2 0, h.getD 3 0, h.getD 4 0) with
  | (a, b, c, d, e) =>
      [w32 (h.getD 0 0 + a), w32 (h.getD 1 0 + b), w32 (h.getD 2 0 + c),
       w32 (h.getD 3 0 + d), w32 (h.getD 4 0 + e)]

/-- Big-endian memory bytes of a 64-bit value. -/
def be64 (v : Nat) : List Nat :=
  [v / 72057594037927936 % 256, v / 281474976710656 % 256,
   v / 1099511627776 % 256, v / 4294967296 % 256,
   v / 16777216 % 256, v / 65536 % 256, v / 256 % 256, v % 256]

/-- FIPS 180 padding: `0x80`, zeros to 56 mod 64, 64-bit bit length. -/
def sha1pad (msg : List Nat) : List Nat :=
  msg ++ [0x80] ++ List.replicate ((119 - msg.length % 64) % 64) 0 ++
    be64 (8 * msg.length)

/-- Fold the compression function over the padded message, 64 bytes at a
time; `fuel` bounds the number of blocks. -/
def sha1Go : List Nat → List Nat → Nat → List Nat
  | h, _, 0 => h
  | h, l, fuel + 1 =>
      if l = [] then h else sha1Go (sha1block h (l.take 64)) (l.drop 64) fuel

/-- The 20 digest bytes of a 5-word state. -/
def digestBytes : List Nat → List Nat
  | [] => []
  | w :: ws => be32 w ++ digestBytes ws

/-- SHA-1 of a byte sequence. -/
def sha1 (msg : List Nat) : List Nat :=
  let p := sha1pad msg
  digestBytes (sha1Go [0x67452301, 0xEFCDAB89, 0x98BADCFE, 0x10325476, 0xC3D2E1F0]
    p p.length)

/-- HMAC-SHA1 (RFC 2104) with a 64-byte block size. -/
def hmacSha1 (key msg : List Nat) : List Nat :=
  let k0 := if 64 < key.length then sha1 key else key.map (· % 256)
  let k := k0 ++ List.replicate (64 - k0.length) 0
  sha1 ((k.map (fun b => b ^^^ 0x5c)) ++ sha1 ((k.map (fun b => b ^^^ 0x36)) ++ msg))

/-- `stun_sha1` (hmac.c lines 48-61): assert `stun_length(msg) ≥ 32`
(`none` models the assertion failure), then HMAC-SHA1, keyed with `key`,
of the first `stun_length(msg) − 12` bytes of the message. -/
def stun_sha1 (msg key : List Nat) : Option (List Nat) :=
  if 32 ≤ stun_length msg then
    some (hmacSha1 key (msg.take (stun_length msg - 12)))
  else none

/-! ### CRC-32 and FINGERPRINT -/

/-- One bit step of the reflected CRC-32 (IEEE 802.3 polynomial). -/
def crc32bit (c : Nat) : Nat :=
  if c % 2 = 1 then (c >>> 1) ^^^ 0xEDB88320 else c >>> 1

/-- CRC-32 of a byte sequence (init `0xFFFFFFFF`, final complement). -/
def crc32 (d : List Nat) : Nat :=
  (d.foldl (fun c b => crc32bit^[8] (c ^^^ (b % 256))) 0xFFFFFFFF) ^^^ 0xFFFFFFFF

/-- Modelled from the spec: `stun_fingerprint` (declared in the missing
`stun-msg.h`, implemented with the parser sources): CRC-32 over the whole
message up to but excluding the 4-byte FINGERPRINT payload, XORed with
`0x5354554E`. -/
def stun_fingerprint (msg : List Nat) : Nat :=
  crc32 (msg.take (20 + stun_length msg - 4)) ^^^ 0x5354554E

/-! ### Finishing a message (`stun_finish_long`, stunsend.c lines 491-555) -/

/-- The C function's three outputs: the `int` result, the buffer, and the
`*plen` out-parameter (unchanged on error). -/
structure FinishOut where
  ret : Nat
  buf : List Nat
  plen : Nat
deriving DecidableEq, Repr

/-- `stun_finish_long`: append REALM, USERNAME, NONCE when present, then a
20-byte MESSAGE-INTEGRITY slot when a key is present, then the 4-byte
FINGERPRINT slot; on success fill the two slots and set
`*plen = 20 + stun_length`.  Any failed reservation returns `ENOBUFS`
without touching `*plen`. -/
def stun_finish_long (msg : List Nat) (plen : Nat) (realm username : Option String)
    (key nonce : Option (List Nat)) : FinishOut :=
  match (match realm with
         | some r => stun_append_string msg plen STUN_REALM r
         | none => (0, msg)) with
  | (v1, m1) =>
    if v1 ≠ 0 then ⟨v1, m1, plen⟩ else
    match (match username with
           | some u => stun_append_string m1 plen STUN_USERNAME u
           | none => (0, m1)) with
    | (v2, m2) =>
      if v2 ≠ 0 then ⟨v2, m2, plen⟩ else
      match (match nonce with
             | some nb => stun_append_bytes m2 plen STUN_NONCE nb
             | none => (0, m2)) with
      | (v3, m3) =>
        if v3 ≠ 0 then ⟨v3, m3, plen⟩ else
        match key with
        | some k =>
          match stun_append m3 plen STUN_MESSAGE_INTEGRITY 20 with
          | (none, m) => ⟨ENOBUFS, m, plen⟩
          | (some shaOff, m4) =>
            match stun_append m4 plen STUN_FINGERPRINT 4 with
            | (none, m) => ⟨ENOBUFS, m, plen⟩
            | (some crcOff, m5) =>
              let m6 := match stun_sha1 m5 k with
                        | some dig => writeBytes m5 shaOff dig
                        | none => m5
              let m7 := writeBytes m6 crcOff (be32 (stun_fingerprint m6))
              ⟨0, m7, 20 + stun_length m7⟩
        | none =>
          match stun_append m3 plen STUN_FINGERPRINT 4 with
          | (none, m) => ⟨ENOBUFS, m, plen⟩
          | (some crcOff, m5) =>
            let m7 := writeBytes m5 crcOff (be32 (stun_fingerprint m5))
            ⟨0, m7, 20 + stun_length m7⟩

/-- `stun_finish_short`: short-term credentials; the key is the password's
bytes. -/
def stun_finish_short (msg : List Nat) (plen : Nat) (username password : Option String)
    (nonce : Option (List Nat)) : FinishOut :=
  stun_finish_long msg plen none username (password.map strBytes) nonce

/-- `stun_finish`: no credentials at all. -/
def stun_finish (msg : List Nat) (plen : Nat) : FinishOut :=
  stun_finish_short msg plen none none none

/-! ### Attribute-sequence bookkeeping (used to state ordering claims) -/

/-- Total byte size of a list of (type, payload-length) attribute entries,
padding included. -/
def attrsSize : List (Nat × Nat) → Nat
  | [] => 0
  | (_, l) :: rest => 4 + l + stun_padding l + attrsSize rest

/-- `attrsAt buf off entries`: starting at `off`, the buffer holds exactly
the TLV headers of `entries`, consecutively (payloads unconstrained). -/
def attrsAt (buf : List Nat) : Nat → List (Nat × Nat) → Bool
  | _, [] => true
  | off, (t, l) :: rest =>
      (readW buf off == t) && (readW buf (off + 2) == l) &&
      attrsAt buf (off + 4 + l + stun_padding l) rest

/-- The attribute entry contributed by an optional payload. -/
def optEnt (t : Nat) : Option (List Nat) → List (Nat × Nat)
  | some d => [(t, d.length)]
  | none => []

/-- The attribute entries `stun_finish_long` is specified to append, in
order: REALM?, USERNAME?, NONCE?, MESSAGE-INTEGRITY (20)?, FINGERPRINT (4). -/
def finishAttrs (realm username : Option String) (key nonce : Option (List Nat)) :
    List (Nat × Nat) :=
  optEnt STUN_REALM (realm.map strBytes) ++
  optEnt STUN_USERNAME (username.map strBytes) ++
  optEnt STUN_NONCE nonce ++
  (match key with | some _ => [(STUN_MESSAGE_INTEGRITY, 20)] | none => []) ++
  [(STUN_FINGERPRINT, 4)]

/-- The dichotomy claimed for every append operation: fail with `ENOBUFS`
leaving the buffer (hence the header length field) unchanged, or succeed
advancing the length field by exactly `4 + paylen + pad_len paylen`,
keeping it a multiple of 4 (given 4-alignment on entry). -/
def AppendOk (msg : List Nat) (paylen : Nat) (res : Nat × List Nat) : Prop :=
  (res.1 = ENOBUFS ∧ res.2 = msg) ∨
  (res.1 = 0 ∧
    stun_length res.2 = stun_length msg + 4 + paylen + stun_padding paylen ∧
    (stun_length msg % 4 = 0 → stun_length res.2 % 4 = 0))

/-! ### The address value type (`src/address/address.c`)

The `NiceAddress` struct itself is declared in `address.h` (not among the
sources); per the spec's data model it has a discriminator, a host-order
IPv4 word, a 16-byte IPv6 array and a host-order 16-bit port. -/

def AF_INET : Nat := 2
def AF_INET6 : Nat := 10
def INET_ADDRSTRLEN : Nat := 16

inductive NiceAddressType where
  | ipv4
  | ipv6
deriving DecidableEq, Repr

structure NiceAddress where
  type : NiceAddressType
  addr_ipv4 : Nat
  addr_ipv6 : List Nat
  port : Nat
deriving DecidableEq, Repr

/-- A socket-address storage area as the C code uses it: the `sa_family`
field, the 2-byte network-order port (`sin_port` and `sin6_port` overlap),
the 4-byte `sin_addr` and the 16-byte `sin6_addr`. -/
structure CSockaddr where
  family : Nat
  port : List Nat
  addr4 : List Nat
  addr6 : List Nat
deriving DecidableEq, Repr

/-- `htons` as stored in memory: two network-order bytes. -/
def htons (v : Nat) : List Nat := [v / 256 % 256, v % 256]

/-- `ntohs`: host value of two network-order bytes. -/
def ntohs (b : List Nat) : Nat := (b.getD 0 0 % 256) * 256 + b.getD 1 0 % 256

/-- `ntohl`: host value of four network-order bytes. -/
def ntohl_bytes (b : List Nat) : Nat :=
  (b.getD 0 0 % 256) * 16777216 + (b.getD 1 0 % 256) * 65536 +
  (b.getD 2 0 % 256) * 256 + b.getD 3 0 % 256

/-- `nice_address_set_ipv4` (address.c lines 55-60). -/
def nice_address_set_ipv4 (a : NiceAddress) (v : Nat) : NiceAddress :=
  { a with type := .ipv4, addr_ipv4 := v % 4294967296 }

/-- `nice_address_set_ipv6` (address.c lines 63-68): `memcpy` of 16 bytes. -/
def nice_address_set_ipv6 (a : NiceAddress) (b : List Nat) : NiceAddress :=
  { a with type := .ipv6, addr_ipv6 := (b.take 16).map (· % 256) }

/-- Split a character list at the dots. -/
def splitDots : List Char → List (List Char)
  | [] => [[]]
  | c :: rest =>
      let r := splitDots rest
      if c = '.' then [] :: r
      else
        match r with
        | g :: gs => (c :: g) :: gs
        | [] => [[c]]

/-- Modelled from the spec: libc `inet_aton`, as the spec describes it —
accept exactly the valid dotted-quad strings.  One octet: one to three
decimal digits, value at most 255. -/
def parseOctet (p : List Char) : Option Nat :=
  if p.length = 0 ∨ 3 < p.length then none
  else if p.all Char.isDigit then
    let v := p.foldl (fun n c => n * 10 + (c.toNat - 48)) 0
    if v ≤ 255 then some v else none
  else none

/-- Modelled from the spec: `inet_aton` returning the four address bytes in
network order (the `s_addr` storage). -/
def inet_aton (s : String) : Option (List Nat) :=
  match (splitDots s.data).mapM parseOctet with
  | some l => if l.length = 4 then some l else none
  | none => none

/-- `nice_address_set_ipv4_from_string` (address.c lines 76-91): on parse
success store `ntohl (s_addr)`, else return FALSE leaving the address as
it was. -/
def nice_address_set_ipv4_from_string (a : NiceAddress) (s : String) :
    Bool × NiceAddress :=
  match inet_aton s with
  | some bytes => (true, nice_address_set_ipv4 a (ntohl_bytes bytes))
  | none => (false, a)

/-- `nice_address_set_from_sockaddr` (address.c lines 96-117); `none`
models `g_assert_not_reached` for a family that is neither `AF_INET` nor
`AF_INET6`. -/
def nice_address_set_from_sockaddr (a : NiceAddress) (sin : CSockaddr) :
    Option NiceAddress :=
  if sin.family = AF_INET then
    some { (nice_address_set_ipv4 a (ntohl_bytes sin.addr4)) with port := ntohs sin.port }
  else if sin.family = AF_INET6 then
    some { (nice_address_set_ipv6 a sin.addr6) with port := ntohs sin.port }
  else none

/-- `nice_address_copy_to_sockaddr` (address.c lines 123-145): family,
address payload, then the network-order port. -/
def nice_address_copy_to_sockaddr (a : NiceAddress) (sin : CSockaddr) : CSockaddr :=
  match a.type with
  | .ipv4 =>
      { sin with
        family := AF_INET,
        addr4 := be32 (a.addr_ipv4 % 4294967296),
        port := htons (a.port % 65536) }
  | .ipv6 =>
      { sin with
        family := AF_INET6,
        addr6 := (a.addr_ipv6.take 16).map (· % 256),
        port := htons (a.port % 65536) }

/-- `nice_address_equal` (address.c lines 168-181): tags, then address
(`memcmp` of `INET_ADDRSTRLEN` = 16 bytes for IPv6) and port. -/
def nice_address_equal (a b : NiceAddress) : Bool :=
  if a.type ≠ b.type then false
  else match a.type with
    | .ipv4 => a.addr_ipv4 == b.addr_ipv4 && a.port == b.port
    | .ipv6 =>
        (a.addr_ipv6.take INET_ADDRSTRLEN == b.addr_ipv6.take INET_ADDRSTRLEN) &&
        a.port == b.port

/-! ### Address attributes (`stun_append_addr`, `stun_append_xor_addr`)

The socket-address structure sizes are the standard Linux ABI values; the
system headers are outside the sources at hand. -/

def sizeof_sockaddr : Nat := 16
def sizeof_sockaddr_in : Nat := 16
def sizeof_sockaddr_in6 : Nat := 28

/-- The common tail of `stun_append_addr` after its family switch: reserve
`4 + alen` payload bytes, then write one zero byte, the family byte, the
two network-order port bytes as stored, and the `alen` address bytes. -/
def stun_append_addr_tail (msg : List Nat) (msize type family alen : Nat)
    (port pa : List Nat) : Nat × List Nat :=
  match stun_append msg msize type (4 + alen) with
  | (none, m) => (ENOBUFS, m)
  | (some ptr, m) => (0, writeBytes m ptr ([0, family] ++ port.take 2 ++ pa.take alen))

/-- `stun_append_addr` (stunsend.c lines 406-456): `EINVAL` when the
socket-address length is smaller than its family requires, `EAFNOSUPPORT`
for a family that is neither `AF_INET` nor `AF_INET6`, otherwise a
MAPPED-ADDRESS-style attribute with a `4 + alen` byte payload. -/
def stun_append_addr (msg : List Nat) (msize type : Nat) (sa : CSockaddr)
    (addrlen : Nat) : Nat × List Nat :=
  if addrlen < sizeof_sockaddr then (EINVAL, msg)
  else if sa.family = AF_INET then
    stun_append_addr_tail msg msize type 1 4 sa.port sa.addr4
  else if sa.family = AF_INET6 then
    if addrlen < sizeof_sockaddr_in6 then (EINVAL, msg)
    else stun_append_addr_tail msg msize type 2 16 sa.port sa.addr6
  else (EAFNOSUPPORT, msg)

/-- The address-payload byte count `stun_append_addr` uses for a socket
address: 4 for `AF_INET`, 16 otherwise (`AF_INET6`). -/
def sockaddr_alen (sa : CSockaddr) : Nat := if sa.family = AF_INET then 4 else 16

/-- Modelled from the spec: `stun_xor_address` (provided with the parser
sources, absent here): XOR the port with the top 16 bits of the magic
cookie and each address byte with the cookie-plus-transaction-ID key
material of the message (RFC 5389 §15.2), validating its arguments the
same way `stun_append_addr` does. -/
def stun_xor_address (msg : List Nat) (sa : CSockaddr) (addrlen : Nat) :
    Nat × CSockaddr :=
  if addrlen < sizeof_sockaddr then (EINVAL, sa)
  else if sa.family = AF_INET then
    (0, { sa with
          port := List.zipWith (fun a b => a ^^^ b) (sa.port.take 2) [0x21, 0x12],
          addr4 := List.zipWith (fun a b => a ^^^ b) (sa.addr4.take 4)
            (readBytes msg 4 4) })
  else if sa.family = AF_INET6 then
    if addrlen < sizeof_sockaddr_in6 then (EINVAL, sa)
    else
      (0, { sa with
            port := List.zipWith (fun a b => a ^^^ b) (sa.port.take 2) [0x21, 0x12],
            addr6 := List.zipWith (fun a b => a ^^^ b) (sa.addr6.take 16)
              (readBytes msg 4 16) })
  else (EAFNOSUPPORT, sa)

/-- `stun_append_xor_addr` (stunsend.c lines 470-488): copy the socket
address, XOR-transform it, then `stun_append_addr` the transformed value;
a transform error is returned as is, before any buffer write. -/
def stun_append_xor_addr (msg : List Nat) (msize type : Nat) (sa : CSockaddr)
    (addrlen : Nat) : Nat × List Nat :=
  let r := stun_xor_address msg sa addrlen
  if r.1 ≠ 0 then (r.1, msg) else stun_append_addr msg msize type r.2 addrlen

/-- The dichotomy for the two address appenders: every failure — `EINVAL`,
`EAFNOSUPPORT` or `ENOBUFS` — leaves the buffer, hence the header length
field, unchanged; success advances the length field by exactly
`4 + paylen + pad_len paylen` for the `4 + alen` byte payload, keeping a
4-aligned length field 4-aligned. -/
def AddrAppendOk (msg : List Nat) (sa : CSockaddr) (res : Nat × List Nat) : Prop :=
  ((res.1 = EINVAL ∨ res.1 = EAFNOSUPPORT ∨ res.1 = ENOBUFS) ∧ res.2 = msg) ∨
  (res.1 = 0 ∧
    stun_length res.2 = stun_length msg + 4 + (4 + sockaddr_alen sa) +
      stun_padding (4 + sockaddr_alen sa) ∧
    (stun_length msg % 4 = 0 → stun_length res.2 % 4 = 0))

/-! ### Concrete vectors used by witnesses and counterexamples -/

/-- A finished header-only request: length field 32, magic cookie, zero
transaction ID, a reserved MESSAGE-INTEGRITY attribute (TLV `0008 0014`,
20 zero payload bytes) and a FINGERPRINT attribute (TLV `8028 0004`). -/
def msgMI : List Nat :=
  [0, 1, 0, 32, 0x21, 0x12, 0xA4, 0x42, 0, 0, 0, 0, 0, 0, 0, 0, 0, 0, 0, 0] ++
  [0, 8, 0, 20] ++ List.replicate 20 0 ++ [0x80, 0x28, 0, 4] ++ List.replicate 4 0

/-- A concrete BINDING request built over a zeroed buffer and zero
transaction ID. -/
def reqBinding : List Nat :=
  stun_init_request (List.replicate 20 0) 1 (List.replicate 12 0)

/-- A zeroed 64-byte answer buffer. -/
def ansErr : List Nat := List.replicate 64 0

/-! ## Part 2 — theorems -/

/-! ### Buffer lemmas -/

theorem writeBytes_cons (m : List Nat) (i b : Nat) (bs : List Nat) :
    writeBytes m i (b :: bs) = writeBytes (m.set i (b % 256)) (i + 1) bs := rfl

theorem length_writeBytes (d : List Nat) (m : List Nat) (i : Nat) :
    (writeBytes m i d).length = m.length := by
  induction d generalizing m i with
  | nil => rfl
  | cons b bs ih => simpa [writeBytes_cons] using ih (m.set i (b % 256)) (i + 1)

theorem getb_writeBytes_of_lt (d : List Nat) (m : List Nat) (i j : Nat) (h : j < i) :
    getb (writeBytes m i d) j = getb m j := by
  induction d generalizing m i with
  | nil => rfl
  | cons b bs ih =>
      rw [writeBytes_cons, ih _ _ (by omega)]
      unfold getb
      rw [List.getD_eq_getElem?_getD, List.getD_eq_getElem?_getD,
        List.getElem?_set_ne (by omega)]

theorem getb_writeBytes_of_ge (d : List Nat) (m : List Nat) (i j : Nat)
    (h : i + d.length ≤ j) : getb (writeBytes m i d) j = getb m j := by
  induction d generalizing m i with
  | nil => rfl
  | cons b bs ih =>
      simp only [List.length_cons] at h
      rw [writeBytes_cons, ih _ _ (by omega)]
      unfold getb
      rw [List.getD_eq_getElem?_getD, List.getD_eq_getElem?_getD,
        List.getElem?_set_ne (by omega)]

theorem getb_writeBytes_of_notin (d : List Nat) (m : List Nat) (i j : Nat)
    (h : j < i ∨ i + d.length ≤ j) : getb (writeBytes m i d) j = getb m j := by
  rcases h with h | h
  · exact getb_writeBytes_of_lt d m i j h
  · exact getb_writeBytes_of_ge d m i j h

theorem getb_writeBytes_get (d : List Nat) (m : List Nat) (i k : Nat)
    (hk : k < d.length) (hin : i + k < m.length) :
    getb (writeBytes m i d) (i + k) = d.getD k 0 % 256 := by
  induction d generalizing m i k with
  | nil => simp at hk
  | cons b bs ih =>
      rw [writeBytes_cons]
      cases k with
      | zero =>
          rw [getb_writeBytes_of_lt _ _ _ _ (by omega), Nat.add_zero]
          unfold getb
          rw [List.getD_eq_getElem?_getD, List.getElem?_set_eq_of_lt _ (by omega)]
          simp
      | succ k' =>
          have := ih (m.set i (b % 256)) (i + 1) k'
            (by simpa using Nat.lt_of_succ_lt_succ (by simpa using hk))
            (by simp only [List.length_set]; omega)
          rw [show i + (k' + 1) = (i + 1) + k' by omega]
          rw [this]
          rfl

theorem readBytes_writeBytes (d : List Nat) (m : List Nat) (i : Nat)
    (h : i + d.length ≤ m.length) :
    readBytes (writeBytes m i d) i d.length = d.map (· % 256) := by
  unfold readBytes
  apply List.ext_getElem
  · simp
  · intro k h1 h2
    simp only [List.getElem_map, List.getElem_range]
    have hk : k < d.length := by simpa using h1
    rw [getb_writeBytes_get d m i k hk (by omega)]
    rw [List.getD_eq_getElem d 0 hk]

theorem writeBytes_append (d1 d2 : List Nat) (m : List Nat) (i : Nat) :
    writeBytes m i (d1 ++ d2) = writeBytes (writeBytes m i d1) (i + d1.length) d2 := by
  induction d1 generalizing m i with
  | nil => simp [writeBytes]
  | cons b bs ih =>
      simp only [List.cons_append, writeBytes_cons, List.length_cons]
      rw [ih]
      congr 1
      omega

theorem stun_length_lt (m : List Nat) : stun_length m < 65536 := by
  have h1 : getb m 2 < 256 := Nat.mod_lt _ (by omega)
  have h2 : getb m (2 + 1) < 256 := Nat.mod_lt _ (by omega)
  unfold stun_length readW
  omega

theorem length_setw (m : List Nat) (i v : Nat) :
    (stun_setw m i v).length = m.length := by
  unfold stun_setw; exact length_writeBytes _ _ _

theorem getb_setw_hi (m : List Nat) (i v : Nat) (h : i < m.length) :
    getb (stun_setw m i v) i = v / 256 % 256 := by
  unfold stun_setw
  have := getb_writeBytes_get [v / 256, v] m i 0 (by simp) (by omega)
  simpa using this

theorem getb_setw_lo (m : List Nat) (i v : Nat) (h : i + 1 < m.length) :
    getb (stun_setw m i v) (i + 1) = v % 256 := by
  unfold stun_setw
  have := getb_writeBytes_get [v / 256, v] m i 1 (by simp) (by omega)
  simpa using this

theorem readW_setw (m : List Nat) (i v : Nat) (h : i + 1 < m.length) :
    readW (stun_setw m i v) i = v % 65536 := by
  unfold readW
  rw [getb_setw_hi m i v (by omega), getb_setw_lo m i v h]
  omega

theorem getb_setw_ne (m : List Nat) (i v j : Nat) (h : j < i ∨ i + 2 ≤ j) :
    getb (stun_setw m i v) j = getb m j := by
  unfold stun_setw
  exact getb_writeBytes_of_notin _ _ _ _ (by simpa using h)

theorem readW_setw_ne (m : List Nat) (i v j : Nat) (h : j + 2 ≤ i ∨ i + 2 ≤ j) :
    readW (stun_setw m i v) j = readW m j := by
  unfold readW
  rw [getb_setw_ne m i v j (by omega), getb_setw_ne m i v (j + 1) (by omega)]

theorem readW_writeBytes_ne (d : List Nat) (m : List Nat) (i j : Nat)
    (h : j + 2 ≤ i ∨ i + d.length ≤ j) : readW (writeBytes m i d) j = readW m j := by
  unfold readW
  rw [getb_writeBytes_of_notin d m i j (by omega),
    getb_writeBytes_of_notin d m i (j + 1) (by omega)]

theorem stun_length_setw_ne (m : List Nat) (i v : Nat) (h : 4 ≤ i) :
    stun_length (stun_setw m i v) = stun_length m := by
  unfold stun_length
  exact readW_setw_ne m i v 2 (by omega)

theorem stun_length_writeBytes_ne (d : List Nat) (m : List Nat) (i : Nat) (h : 4 ≤ i) :
    stun_length (writeBytes m i d) = stun_length m := by
  unfold stun_length
  exact readW_writeBytes_ne d m i 2 (by omega)

theorem stun_padding_le (len : Nat) : stun_padding len ≤ 3 := by
  unfold stun_padding; omega

/-! ### Behaviour of the append primitive -/

/-- Everything the rest of the development needs to know about a successful
or failed `stun_append`: the failure condition, the returned offset, the
new value of the length field, the TLV header bytes, and the frame (bytes
of the old attribute section and of the fresh payload slot are untouched). -/
theorem stun_append_spec (msg : List Nat) (msize type length : Nat)
    (hsz : msize ≤ msg.length) :
    (stun_append msg msize type length =
        (none, msg) ∧ stun_length msg + 24 + length > min msize STUN_MAXMSG) ∨
    (∃ m', stun_append msg msize type length = (some (24 + stun_length msg), m') ∧
      stun_length msg + 24 + length ≤ min msize STUN_MAXMSG ∧
      m'.length = msg.length ∧
      stun_length m' = stun_length msg + 4 + length + stun_padding length ∧
      readW m' (20 + stun_length msg) = type % 65536 ∧
      readW m' (22 + stun_length msg) = length ∧
      (∀ j, 4 ≤ j → j < 20 + stun_length msg → getb m' j = getb msg j) ∧
      (∀ k, k < length → getb m' (24 + stun_length msg + k) =
        getb msg (24 + stun_length msg + k))) := by
  unfold stun_append
  by_cases hov : stun_length msg + 24 + length > min msize STUN_MAXMSG
  · left
    rw [if_pos hov]
    exact ⟨rfl, hov⟩
  · right
    push_neg at hov
    rw [if_neg (by omega)]
    set mlen := stun_length msg with hmdef
    have hMAX : min msize STUN_MAXMSG ≤ 65515 := by
      have : STUN_MAXMSG = 65515 := rfl
      omega
    have hle : mlen + 24 + length ≤ msg.length :=
      le_trans (le_trans hov (min_le_left _ _)) hsz
    have hpad := stun_padding_le length
    set pad := stun_padding length with hpdef
    set m1 := stun_setw msg (20 + mlen) type with hm1
    set m2 := stun_setw m1 (20 + mlen + 2) length with hm2
    set m3 := writeBytes m2 (20 + mlen + 4 + length) (List.replicate pad 0x20) with hm3
    set mf := stun_setw m3 2 (mlen + 4 + length + pad) with hmf
    have hL1 : m1.length = msg.length := length_setw _ _ _
    have hL2 : m2.length = msg.length := by rw [hm2, length_setw, hL1]
    have hL3 : m3.length = msg.length := by rw [hm3, length_writeBytes, hL2]
    have hLf : mf.length = msg.length := by rw [hmf, length_setw, hL3]
    refine ⟨mf, ?_, hov, hLf, ?_, ?_, ?_, ?_, ?_⟩
    · have : 24 + mlen = 20 + mlen + 4 := by omega
      rw [this]
    · -- the new length field
      have h1 : stun_length mf = (mlen + 4 + length + pad) % 65536 := by
        rw [hmf]
        unfold stun_length
        exact readW_setw m3 2 _ (by omega)
      rw [h1]
      omega
    · -- the attribute type bytes
      rw [hmf, readW_setw_ne m3 2 _ _ (by omega), hm3,
        readW_writeBytes_ne _ m2 _ _ (by omega), hm2,
        readW_setw_ne m1 _ _ _ (by omega), hm1]
      unfold readW
      rw [getb_setw_hi msg _ type (by omega), getb_setw_lo msg _ type (by omega)]
      omega
    · -- the attribute length bytes
      have h22 : 22 + mlen = 20 + mlen + 2 := by omega
      rw [hmf, readW_setw_ne m3 2 _ _ (by omega), hm3,
        readW_writeBytes_ne _ m2 _ _ (by omega), h22, hm2,
        readW_setw m1 _ _ (by omega)]
      omega
    · -- frame: the previous attribute section
      intro j hj4 hj
      rw [hmf, getb_setw_ne m3 2 _ _ (by omega), hm3,
        getb_writeBytes_of_notin _ m2 _ _ (by omega), hm2,
        getb_setw_ne m1 _ _ _ (by omega), hm1,
        getb_setw_ne msg _ _ _ (by omega)]
    · -- frame: the fresh payload slot
      intro k hk
      rw [hmf, getb_setw_ne m3 2 _ _ (by omega), hm3,
        getb_writeBytes_of_notin _ m2 _ _ (by omega), hm2,
        getb_setw_ne m1 _ _ _ (by omega), hm1,
        getb_setw_ne msg _ _ _ (by omega)]

/-- The corresponding description of `stun_append_bytes`: same dichotomy,
and on success the payload slot holds the copied data. -/
theorem stun_append_bytes_spec (msg : List Nat) (msize type : Nat) (data : List Nat)
    (hsz : msize ≤ msg.length) :
    (stun_append_bytes msg msize type data = (ENOBUFS, msg) ∧
      stun_length msg + 24 + data.length > min msize STUN_MAXMSG) ∨
    (∃ m', stun_append_bytes msg msize type data = (0, m') ∧
      stun_length msg + 24 + data.length ≤ min msize STUN_MAXMSG ∧
      m'.length = msg.length ∧
      stun_length m' = stun_length msg + 4 + data.length + stun_padding data.length ∧
      readW m' (20 + stun_length msg) = type % 65536 ∧
      readW m' (22 + stun_length msg) = data.length ∧
      (∀ j, 4 ≤ j → j < 20 + stun_length msg → getb m' j = getb msg j) ∧
      readBytes m' (24 + stun_length msg) data.length = data.map (· % 256)) := by
  unfold stun_append_bytes
  rcases stun_append_spec msg msize type data.length hsz with ⟨heq, hov⟩ |
    ⟨m', heq, hov, hL, hlen, hty, hlw, hfr, hpay⟩
  · left
    rw [heq]
    exact ⟨rfl, hov⟩
  · right
    rw [heq]
    have hin : 24 + stun_length msg + data.length ≤ m'.length := by
      have : STUN_MAXMSG = 65515 := rfl
      have h1 := min_le_left msize STUN_MAXMSG
      omega
    refine ⟨writeBytes m' (24 + stun_length msg) data, rfl, hov, ?_, ?_, ?_, ?_, ?_, ?_⟩
    · rw [length_writeBytes, hL]
    · rw [stun_length_writeBytes_ne _ _ _ (by omega), hlen]
    · rw [readW_writeBytes_ne _ _ _ _ (by omega), hty]
    · rw [readW_writeBytes_ne _ _ _ _ (by omega), hlw]
    · intro j hj4 hj
      rw [getb_writeBytes_of_notin _ _ _ _ (by omega), hfr j hj4 hj]
    · exact readBytes_writeBytes data m' (24 + stun_length msg) hin

/-! ### Attribute-sequence lemmas -/

theorem attrsSize_append (l1 l2 : List (Nat × Nat)) :
    attrsSize (l1 ++ l2) = attrsSize l1 + attrsSize l2 := by
  induction l1 with
  | nil => simp [attrsSize]
  | cons p rest ih =>
      cases p with
      | mk t l =>
          show attrsSize ((t, l) :: (rest ++ l2)) = _
          simp only [attrsSize, ih]
          omega

theorem attrsAt_append (buf : List Nat) (l1 l2 : List (Nat × Nat)) : ∀ off,
    attrsAt buf off (l1 ++ l2) =
      (attrsAt buf off l1 && attrsAt buf (off + attrsSize l1) l2) := by
  induction l1 with
  | nil => intro off; simp [attrsAt, attrsSize]
  | cons p rest ih =>
      intro off
      cases p with
      | mk t l =>
          show attrsAt buf off ((t, l) :: (rest ++ l2)) = _
          simp only [attrsAt, attrsSize, ih, Bool.and_assoc]
          have : off + 4 + l + stun_padding l + attrsSize rest =
              off + (4 + l + stun_padding l + attrsSize rest) := by omega
          rw [this]

theorem attrsAt_frame (buf buf' : List Nat) (l : List (Nat × Nat)) : ∀ off,
    (∀ j, off ≤ j → j < off + attrsSize l → getb buf' j = getb buf j) →
    attrsAt buf' off l = attrsAt buf off l := by
  induction l with
  | nil => intro off _; rfl
  | cons p rest ih =>
      intro off hag
      cases p with
      | mk t l =>
          have hsz : 4 + l + stun_padding l ≤ attrsSize ((t, l) :: rest) := by
            simp only [attrsSize]; omega
          have hW : ∀ x, off ≤ x → x + 1 < off + 4 + l + stun_padding l →
              readW buf' x = readW buf x := by
            intro x hx1 hx2
            unfold readW
            rw [hag x hx1 (by simp only [attrsSize]; omega),
              hag (x + 1) (by omega) (by simp only [attrsSize]; omega)]
          simp only [attrsAt]
          rw [hW off (by omega) (by omega), hW (off + 2) (by omega) (by omega),
            ih (off + 4 + l + stun_padding l) (fun j hj1 hj2 =>
              hag j (by omega) (by simp only [attrsSize]; omega))]

/-- Appending one attribute extends a valid attribute trace by one entry. -/
theorem attrs_extend (m m' : List Nat) (L0 t paylen : Nat) (done : List (Nat × Nat))
    (hL : stun_length m = L0 + attrsSize done)
    (hA : attrsAt m (20 + L0) done = true)
    (hlen' : stun_length m' = stun_length m + 4 + paylen + stun_padding paylen)
    (htyp : readW m' (20 + stun_length m) = t % 65536)
    (hty2 : t < 65536)
    (hlenw : readW m' (22 + stun_length m) = paylen)
    (hfr : ∀ j, 4 ≤ j → j < 20 + stun_length m → getb m' j = getb m j) :
    stun_length m' = L0 + attrsSize (done ++ [(t, paylen)]) ∧
    attrsAt m' (20 + L0) (done ++ [(t, paylen)]) = true := by
  constructor
  · rw [attrsSize_append]
    simp only [attrsSize]
    omega
  · rw [attrsAt_append]
    have h1 : attrsAt m' (20 + L0) done = true := by
      rw [attrsAt_frame m m' done (20 + L0) (fun j hj1 hj2 => hfr j (by omega) (by omega))]
      exact hA
    have hoff : 20 + L0 + attrsSize done = 20 + stun_length m := by omega
    have h2 : attrsAt m' (20 + L0 + attrsSize done) [(t, paylen)] = true := by
      simp only [attrsAt, hoff, Bool.and_eq_true, beq_iff_eq]
      refine ⟨⟨?_, ?_⟩, trivial⟩
      · rw [htyp, Nat.mod_eq_of_lt hty2]
      · rw [show 20 + stun_length m + 2 = 22 + stun_length m by omega, hlenw]
    rw [h1, h2]
    rfl

/-! ### Digest-length lemmas -/

theorem digestBytes_length (h : List Nat) : (digestBytes h).length = 4 * h.length := by
  induction h with
  | nil => rfl
  | cons w ws ih => simp [digestBytes, be32, ih]; omega

theorem sha1block_length (h blk : List Nat) : (sha1block h blk).length = 5 := by
  unfold sha1block
  rcases sha1rounds (sha1extend (blockWords blk) 64) 80
    (h.getD 0 0, h.getD 1 0, h.getD 2 0, h.getD 3 0, h.getD 4 0) with
    ⟨a, b, c, d, e⟩
  rfl

theorem sha1Go_length (fuel : Nat) : ∀ h l : List Nat, h.length = 5 →
    (sha1Go h l fuel).length = 5 := by
  induction fuel with
  | zero => intro h l hh; exact hh
  | succ n ih =>
      intro h l hh
      unfold sha1Go
      by_cases hl : l = []
      · rw [if_pos hl]; exact hh
      · rw [if_neg hl]
        exact ih _ _ (sha1block_length h (l.take 64))

theorem sha1_length (msg : List Nat) : (sha1 msg).length = 20 := by
  unfold sha1
  rw [digestBytes_length, sha1Go_length _ _ _ (by rfl)]

theorem hmacSha1_length (key msg : List Nat) : (hmacSha1 key msg).length = 20 := by
  unfold hmacSha1
  exact sha1_length _

/-! ### Step lemmas for `stun_finish_long` -/

/-- One optional string append inside `stun_finish_long`: failure returns
`ENOBUFS` with the buffer untouched; success extends the attribute trace. -/
theorem opt_str_step (m : List Nat) (msize t : Nat) (d : Option String)
    (v : Nat) (m' : List Nat)
    (hres : (match d with
             | some s => stun_append_string m msize t s
             | none => ((0 : Nat), m)) = (v, m'))
    (hsz : msize ≤ m.length) (ht : t < 65536) (L0 : Nat) (done : List (Nat × Nat))
    (hL : stun_length m = L0 + attrsSize done)
    (hA : attrsAt m (20 + L0) done = true) :
    (v ≠ 0 → v = ENOBUFS ∧ m' = m) ∧
    (v = 0 → m'.length = m.length ∧
      stun_length m' = L0 + attrsSize (done ++ optEnt t (d.map strBytes)) ∧
      attrsAt m' (20 + L0) (done ++ optEnt t (d.map strBytes)) = true) := by
  cases d with
  | none =>
      simp only at hres
      obtain ⟨hv, hm⟩ : v = 0 ∧ m' = m := by
        constructor <;> [exact (Prod.mk.injEq .. ▸ hres).1.symm ▸ rfl;
          exact ((Prod.mk.injEq .. ▸ hres : _ ∧ _).2).symm]
      subst hv
      subst hm
      refine ⟨fun hc => absurd rfl hc, fun _ => ⟨rfl, ?_, ?_⟩⟩
      · simpa [optEnt, Option.map] using hL
      · simpa [optEnt, Option.map] using hA
  | some s =>
      simp only [Option.map_some] at hres ⊢
      unfold stun_append_string at hres
      rcases stun_append_bytes_spec m msize t (strBytes s) hsz with ⟨heq, _⟩ |
        ⟨mm, heq, _, hN, hlen, hty, hlw, hfr, _⟩
      · rw [heq] at hres
        obtain ⟨hv, hm⟩ := Prod.mk.injEq .. ▸ hres
        refine ⟨fun _ => ⟨hv.symm, hm.symm⟩, fun hc => absurd (hv ▸ hc) (by decide)⟩
      · rw [heq] at hres
        obtain ⟨hv, hm⟩ := Prod.mk.injEq .. ▸ hres
        subst hm
        refine ⟨fun hc => absurd hv.symm hc, fun _ => ⟨hN, ?_⟩⟩
        exact attrs_extend m mm L0 t (strBytes s).length done hL hA hlen hty ht hlw hfr

/-- One optional raw-bytes append inside `stun_finish_long`. -/
theorem opt_bytes_step (m : List Nat) (msize t : Nat) (d : Option (List Nat))
    (v : Nat) (m' : List Nat)
    (hres : (match d with
             | some b => stun_append_bytes m msize t b
             | none => ((0 : Nat), m)) = (v, m'))
    (hsz : msize ≤ m.length) (ht : t < 65536) (L0 : Nat) (done : List (Nat × Nat))
    (hL : stun_length m = L0 + attrsSize done)
    (hA : attrsAt m (20 + L0) done = true) :
    (v ≠ 0 → v = ENOBUFS ∧ m' = m) ∧
    (v = 0 → m'.length = m.length ∧
      stun_length m' = L0 + attrsSize (done ++ optEnt t d) ∧
      attrsAt m' (20 + L0) (done ++ optEnt t d) = true) := by
  cases d with
  | none =>
      simp only at hres
      obtain ⟨hv, hm⟩ := Prod.mk.injEq .. ▸ hres
      subst hm
      refine ⟨fun hc => absurd hv.symm hc, fun _ => ⟨rfl, ?_, ?_⟩⟩
      · simpa [optEnt] using hL
      · simpa [optEnt] using hA
  | some b =>
      simp only at hres ⊢
      rcases stun_append_bytes_spec m msize t b hsz with ⟨heq, _⟩ |
        ⟨mm, heq, _, hN, hlen, hty, hlw, hfr, _⟩
      · rw [heq] at hres
        obtain ⟨hv, hm⟩ := Prod.mk.injEq .. ▸ hres
        refine ⟨fun _ => ⟨hv.symm, hm.symm⟩, fun hc => absurd (hv ▸ hc) (by decide)⟩
      · rw [heq] at hres
        obtain ⟨hv, hm⟩ := Prod.mk.injEq .. ▸ hres
        subst hm
        refine ⟨fun hc => absurd hv.symm hc, fun _ => ⟨hN, ?_⟩⟩
        exact attrs_extend m mm L0 t b.length done hL hA hlen hty ht hlw hfr

/-- C2. `stun_finish_long` appends REALM (if present), USERNAME (if
present), NONCE (if present), a 20-byte MESSAGE-INTEGRITY slot (if a key is
present), then a 4-byte FINGERPRINT slot, in that fixed order; on success
it sets `*plen` to `20 + header.length` and returns 0, and on any failed
reservation it returns `ENOBUFS` leaving `*plen` unchanged (the partially
appended buffer is what the result carries). -/
theorem stun_finish_long_order (msg : List Nat) (plen : Nat)
    (realm username : Option String) (key nonce : Option (List Nat))
    (hsz : plen ≤ msg.length) :
    ((stun_finish_long msg plen realm username key nonce).ret = 0 ∨
     (stun_finish_long msg plen realm username key nonce).ret = ENOBUFS) ∧
    ((stun_finish_long msg plen realm username key nonce).ret ≠ 0 →
      (stun_finish_long msg plen realm username key nonce).plen = plen) ∧
    ((stun_finish_long msg plen realm username key nonce).ret = 0 →
      (stun_finish_long msg plen realm username key nonce).plen =
        20 + stun_length (stun_finish_long msg plen realm username key nonce).buf ∧
      stun_length (stun_finish_long msg plen realm username key nonce).buf =
        stun_length msg + attrsSize (finishAttrs realm username key nonce) ∧
      attrsAt (stun_finish_long msg plen realm username key nonce).buf
        (20 + stun_length msg) (finishAttrs realm username key nonce) = true) := by
  unfold stun_finish_long
  -- step 1: REALM
  rcases hE1 : (match realm with
    | some r => stun_append_string msg plen STUN_REALM r
    | none => ((0 : Nat), msg)) with ⟨v1, m1⟩
  rw [hE1]
  dsimp only
  obtain ⟨hf1, hs1⟩ := opt_str_step msg plen STUN_REALM realm v1 m1 hE1 hsz
    (by decide) (stun_length msg) [] (by simp [attrsSize]) rfl
  by_cases hv1 : v1 = 0
  case neg =>
    rw [if_pos hv1]
    exact ⟨Or.inr (hf1 hv1).1, fun _ => rfl, fun h0 => absurd h0 hv1⟩
  case pos =>
  subst hv1
  rw [if_neg (by simp)]
  obtain ⟨hN1, hL1, hA1⟩ := hs1 rfl
  -- step 2: USERNAME
  rcases hE2 : (match username with
    | some u => stun_append_string m1 plen STUN_USERNAME u
    | none => ((0 : Nat), m1)) with ⟨v2, m2⟩
  rw [hE2]
  dsimp only
  obtain ⟨hf2, hs2⟩ := opt_str_step m1 plen STUN_USERNAME username v2 m2 hE2
    (by omega) (by decide) (stun_length msg) ([] ++ optEnt STUN_REALM (realm.map strBytes))
    hL1 hA1
  by_cases hv2 : v2 = 0
  case neg =>
    rw [if_pos hv2]
    exact ⟨Or.inr (hf2 hv2).1, fun _ => rfl, fun h0 => absurd h0 hv2⟩
  case pos =>
  subst hv2
  rw [if_neg (by simp)]
  obtain ⟨hN2, hL2, hA2⟩ := hs2 rfl
  -- step 3: NONCE
  rcases hE3 : (match nonce with
    | some nb => stun_append_bytes m2 plen STUN_NONCE nb
    | none => ((0 : Nat), m2)) with ⟨v3, m3⟩
  rw [hE3]
  dsimp only
  obtain ⟨hf3, hs3⟩ := opt_bytes_step m2 plen STUN_NONCE nonce v3 m3 hE3
    (by omega) (by decide) (stun_length msg)
    (([] ++ optEnt STUN_REALM (realm.map strBytes)) ++
      optEnt STUN_USERNAME (username.map strBytes)) hL2 hA2
  by_cases hv3 : v3 = 0
  case neg =>
    rw [if_pos hv3]
    exact ⟨Or.inr (hf3 hv3).1, fun _ => rfl, fun h0 => absurd h0 hv3⟩
  case pos =>
  subst hv3
  rw [if_neg (by simp)]
  obtain ⟨hN3, hL3, hA3⟩ := hs3 rfl
  cases key with
  | none =>
      -- FINGERPRINT reservation only
      rcases stun_append_spec m3 plen STUN_FINGERPRINT 4 (by omega) with
        ⟨heq5, _⟩ | ⟨m5, heq5, hov5, hN5, hlen5, hty5, hlw5, hfr5, _⟩
      · rw [heq5]
        dsimp only
        exact ⟨Or.inr rfl, fun _ => rfl, fun h0 => absurd h0 (by decide)⟩
      · rw [heq5]
        dsimp only
        obtain ⟨hL5, hA5⟩ := attrs_extend m3 m5 (stun_length msg) STUN_FINGERPRINT 4
          _ hL3 hA3 hlen5 hty5 (by decide) hlw5 hfr5
        have hp4 : stun_padding 4 = 0 := by decide
        have h35 : stun_length m5 = stun_length m3 + 8 := by rw [hlen5, hp4]
        have hbe4 : ∀ x : Nat, (be32 x).length = 4 := fun x => rfl
        set m7 := writeBytes m5 (24 + stun_length m3) (be32 (stun_fingerprint m5)) with hm7
        have hL7 : stun_length m7 = stun_length m5 := by
          rw [hm7]; exact stun_length_writeBytes_ne _ _ _ (by omega)
        have hr7 : ∀ x, x + 2 ≤ 24 + stun_length m3 → readW m7 x = readW m5 x := by
          intro x hx
          rw [hm7]
          exact readW_writeBytes_ne _ _ _ _ (Or.inl hx)
        have hA7 : attrsAt m7 (20 + stun_length msg)
            ((([] ++ optEnt STUN_REALM (realm.map strBytes)) ++
              optEnt STUN_USERNAME (username.map strBytes) ++
              optEnt STUN_NONCE nonce) ++ [(STUN_FINGERPRINT, 4)]) = true := by
          rw [attrsAt_append, Bool.and_eq_true] at hA5 ⊢
          obtain ⟨hA13, hAFP⟩ := hA5
          constructor
          · rw [attrsAt_frame m5 m7 _ (20 + stun_length msg) ?_]
            · exact hA13
            · intro j hj1 hj2
              rw [hm7]
              exact getb_writeBytes_of_notin _ _ _ _ (Or.inl (by omega))
          · have ho : 20 + stun_length msg + attrsSize
                (([] ++ optEnt STUN_REALM (realm.map strBytes)) ++
                  optEnt STUN_USERNAME (username.map strBytes) ++
                  optEnt STUN_NONCE nonce) = 20 + stun_length m3 := by omega
            rw [ho] at hAFP ⊢
            simp only [attrsAt, Bool.and_true, Bool.and_eq_true, beq_iff_eq] at hAFP ⊢
            rw [hr7 _ (by omega), hr7 _ (by omega)]
            exact hAFP
        have hfa : finishAttrs realm username none nonce =
            (([] ++ optEnt STUN_REALM (realm.map strBytes)) ++
              optEnt STUN_USERNAME (username.map strBytes) ++
              optEnt STUN_NONCE nonce) ++ [(STUN_FINGERPRINT, 4)] := by
          simp [finishAttrs, List.append_assoc]
        refine ⟨Or.inl rfl, fun hc => absurd rfl hc, fun _ => ⟨rfl, ?_, ?_⟩⟩
        · rw [hfa, hL7, hL5]
        · rw [hfa]; exact hA7
  | some k =>
      -- MESSAGE-INTEGRITY reservation
      rcases stun_append_spec m3 plen STUN_MESSAGE_INTEGRITY 20 (by omega) with
        ⟨heq4, _⟩ | ⟨m4, heq4, hov4, hN4, hlen4, hty4, hlw4, hfr4, _⟩
      · rw [heq4]
        dsimp only
        exact ⟨Or.inr rfl, fun _ => rfl, fun h0 => absurd h0 (by decide)⟩
      · rw [heq4]
        dsimp only
        obtain ⟨hL4, hA4⟩ := attrs_extend m3 m4 (stun_length msg) STUN_MESSAGE_INTEGRITY 20
          _ hL3 hA3 hlen4 hty4 (by decide) hlw4 hfr4
        -- FINGERPRINT reservation
        rcases stun_append_spec m4 plen STUN_FINGERPRINT 4 (by omega) with
          ⟨heq5, _⟩ | ⟨m5, heq5, hov5, hN5, hlen5, hty5, hlw5, hfr5, _⟩
        · rw [heq5]
          dsimp only
          exact ⟨Or.inr rfl, fun _ => rfl, fun h0 => absurd h0 (by decide)⟩
        · rw [heq5]
          dsimp only
          obtain ⟨hL5, hA5⟩ := attrs_extend m4 m5 (stun_length msg) STUN_FINGERPRINT 4
            _ hL4 hA4 hlen5 hty5 (by decide) hlw5 hfr5
          have hp20 : stun_padding 20 = 0 := by decide
          have hp4 : stun_padding 4 = 0 := by decide
          have h34 : stun_length m4 = stun_length m3 + 24 := by rw [hlen4, hp20]
          have h45 : stun_length m5 = stun_length m4 + 8 := by rw [hlen5, hp4]
          have h32 : 32 ≤ stun_length m5 := by omega
          have hsha : stun_sha1 m5 k =
              some (hmacSha1 k (m5.take (stun_length m5 - 12))) := by
            unfold stun_sha1; rw [if_pos h32]
          rw [hsha]
          dsimp only
          have hdigL : (hmacSha1 k (m5.take (stun_length m5 - 12))).length = 20 :=
            hmacSha1_length _ _
          set dig := hmacSha1 k (m5.take (stun_length m5 - 12)) with hdg
          set m6 := writeBytes m5 (24 + stun_length m3) dig with hm6
          set m7 := writeBytes m6 (24 + stun_length m4) (be32 (stun_fingerprint m6)) with hm7
          have hbe4 : ∀ x : Nat, (be32 x).length = 4 := fun x => rfl
          have hL6 : stun_length m6 = stun_length m5 := by
            rw [hm6]; exact stun_length_writeBytes_ne _ _ _ (by omega)
          have hL7 : stun_length m7 = stun_length m5 := by
            rw [hm7, stun_length_writeBytes_ne _ _ _ (by omega), hL6]
          have hr6 : ∀ x, x + 2 ≤ 24 + stun_length m3 ∨ 44 + stun_length m3 ≤ x →
              readW m6 x = readW m5 x := by
            intro x hx
            rw [hm6]
            refine readW_writeBytes_ne _ _ _ _ ?_
            rcases hx with hx | hx
            · exact Or.inl hx
            · right; omega
          have hr7 : ∀ x, x + 2 ≤ 24 + stun_length m4 → readW m7 x = readW m6 x := by
            intro x hx
            rw [hm7]
            exact readW_writeBytes_ne _ _ _ _ (Or.inl hx)
          have hA7 : attrsAt m7 (20 + stun_length msg)
              (((([] ++ optEnt STUN_REALM (realm.map strBytes)) ++
                optEnt STUN_USERNAME (username.map strBytes) ++
                optEnt STUN_NONCE nonce) ++ [(STUN_MESSAGE_INTEGRITY, 20)]) ++
                [(STUN_FINGERPRINT, 4)]) = true := by
            rw [attrsAt_append, Bool.and_eq_true] at hA5 ⊢
            obtain ⟨hA14, hAFP⟩ := hA5
            rw [attrsAt_append, Bool.and_eq_true] at hA14 ⊢
            obtain ⟨hA13, hAMI⟩ := hA14
            refine ⟨⟨?_, ?_⟩, ?_⟩
            · rw [attrsAt_frame m5 m7 _ (20 + stun_length msg) ?_]
              · exact hA13
              · intro j hj1 hj2
                rw [hm7, getb_writeBytes_of_notin _ _ _ _ (Or.inl (by omega)), hm6]
                exact getb_writeBytes_of_notin _ _ _ _ (Or.inl (by omega))
            · have ho : 20 + stun_length msg + attrsSize
                  (([] ++ optEnt STUN_REALM (realm.map strBytes)) ++
                    optEnt STUN_USERNAME (username.map strBytes) ++
                    optEnt STUN_NONCE nonce) = 20 + stun_length m3 := by omega
              rw [ho] at hAMI ⊢
              simp only [attrsAt, Bool.and_true, Bool.and_eq_true, beq_iff_eq] at hAMI ⊢
              rw [hr7 _ (by omega), hr7 _ (by omega), hr6 _ (by omega), hr6 _ (by omega)]
              exact hAMI
            · have hSMI : attrsSize [(STUN_MESSAGE_INTEGRITY, 20)] = 24 := by decide
              have ho2 : 20 + stun_length msg + attrsSize
                  ((([] ++ optEnt STUN_REALM (realm.map strBytes)) ++
                    optEnt STUN_USERNAME (username.map strBytes) ++
                    optEnt STUN_NONCE nonce) ++ [(STUN_MESSAGE_INTEGRITY, 20)]) =
                  20 + stun_length m4 := by
                rw [attrsSize_append, hSMI]; omega
              rw [ho2] at hAFP ⊢
              simp only [attrsAt, Bool.and_true, Bool.and_eq_true, beq_iff_eq] at hAFP ⊢
              rw [hr7 _ (by omega), hr7 _ (by omega), hr6 _ (by omega), hr6 _ (by omega)]
              exact hAFP
          have hfa : finishAttrs realm username (some k) nonce =
              ((([] ++ optEnt STUN_REALM (realm.map strBytes)) ++
                optEnt STUN_USERNAME (username.map strBytes) ++
                optEnt STUN_NONCE nonce) ++ [(STUN_MESSAGE_INTEGRITY, 20)]) ++
                [(STUN_FINGERPRINT, 4)] := by
            simp [finishAttrs, List.append_assoc]
          refine ⟨Or.inl rfl, fun hc => absurd rfl hc, fun _ => ⟨rfl, ?_, ?_⟩⟩
          · rw [hfa, hL7, hL5]
          · rw [hfa]; exact hA7

/-- C2 witness: a concrete run of `stun_finish_long` with all options
present on a 64-byte zeroed buffer. -/
theorem stun_finish_long_order_witness :
    (64 : Nat) ≤ (List.replicate 64 (0 : Nat)).length ∧
    ((stun_finish_long (List.replicate 64 0) 64 (some "r") (some "u")
        (some [1, 2]) (some [3])).ret = 0 ∨
     (stun_finish_long (List.replicate 64 0) 64 (some "r") (some "u")
        (some [1, 2]) (some [3])).ret = ENOBUFS) :=
  ⟨by decide, (stun_finish_long_order (List.replicate 64 0) 64 (some "r") (some "u")
    (some [1, 2]) (some [3]) (by decide)).1⟩

/-! ### Append dichotomy (claims C3 and C4) -/

theorem stun_padding_mod (len : Nat) : (len + stun_padding len) % 4 = 0 := by
  unfold stun_padding
  omega

theorem appendOk_of_bytes (msg : List Nat) (msize type : Nat) (data : List Nat)
    (hsz : msize ≤ msg.length) :
    AppendOk msg data.length (stun_append_bytes msg msize type data) := by
  rcases stun_append_bytes_spec msg msize type data hsz with ⟨heq, _⟩ |
    ⟨m', heq, _, _, hlen, _, _, _, _⟩
  · left
    rw [heq]
    exact ⟨rfl, rfl⟩
  · right
    rw [heq]
    refine ⟨rfl, hlen, fun h4 => ?_⟩
    have := stun_padding_mod data.length
    simp only
    omega

/-- `stun_append_error` also obeys the `ENOBUFS`-or-advance dichotomy: its
payload writes happen after the reservation and never touch the length
field. -/
theorem appendOk_error (msg : List Nat) (msize code : Nat)
    (hsz : msize ≤ msg.length) :
    AppendOk msg (4 + (strBytes (stun_strerror code)).length)
      (stun_append_error msg msize code) := by
  unfold stun_append_error AppendOk
  dsimp only
  rcases stun_append_spec msg msize STUN_ERROR_CODE
      (4 + (strBytes (stun_strerror code)).length) hsz with ⟨heq, _⟩ |
    ⟨m', heq, hov, hN, hlen, _, _, _, _⟩
  · rw [heq]
    left
    exact ⟨rfl, rfl⟩
  · rw [heq]
    right
    dsimp only
    have hL : stun_length (writeBytes (writeBytes (writeBytes m'
        (24 + stun_length msg) [0, 0]) (24 + stun_length msg + 2)
        [code / 100, code % 100]) (24 + stun_length msg + 4)
        (strBytes (stun_strerror code))) = stun_length m' := by
      rw [stun_length_writeBytes_ne _ _ _ (by omega),
        stun_length_writeBytes_ne _ _ _ (by omega),
        stun_length_writeBytes_ne _ _ _ (by omega)]
    refine ⟨rfl, ?_, fun h4 => ?_⟩
    · rw [hL, hlen]
    · rw [hL, hlen]
      have := stun_padding_mod (4 + (strBytes (stun_strerror code)).length)
      omega

theorem stun_append_addr_tail_spec (msg : List Nat) (msize type family alen : Nat)
    (port pa : List Nat) (hsz : msize ≤ msg.length) :
    ((stun_append_addr_tail msg msize type family alen port pa).1 = ENOBUFS ∧
      (stun_append_addr_tail msg msize type family alen port pa).2 = msg) ∨
    ((stun_append_addr_tail msg msize type family alen port pa).1 = 0 ∧
      stun_length (stun_append_addr_tail msg msize type family alen port pa).2 =
        stun_length msg + 4 + (4 + alen) + stun_padding (4 + alen) ∧
      (stun_length msg % 4 = 0 →
        stun_length (stun_append_addr_tail msg msize type family alen port pa).2 %
          4 = 0)) := by
  unfold stun_append_addr_tail
  rcases stun_append_spec msg msize type (4 + alen) hsz with ⟨heq, _⟩ |
    ⟨m', heq, hov, hN, hlen, _, _, _, _⟩
  · rw [heq]
    left
    exact ⟨rfl, rfl⟩
  · rw [heq]
    right
    dsimp only
    have hL : stun_length (writeBytes m' (24 + stun_length msg)
        ([0, family] ++ port.take 2 ++ pa.take alen)) = stun_length m' :=
      stun_length_writeBytes_ne _ _ _ (by omega)
    refine ⟨rfl, ?_, fun h4 => ?_⟩
    · rw [hL, hlen]
    · rw [hL, hlen]
      have := stun_padding_mod (4 + alen)
      omega

theorem stun_append_addr_spec (msg : List Nat) (msize type : Nat) (sa : CSockaddr)
    (addrlen : Nat) (hsz : msize ≤ msg.length) :
    AddrAppendOk msg sa (stun_append_addr msg msize type sa addrlen) := by
  unfold stun_append_addr AddrAppendOk
  by_cases h1 : addrlen < sizeof_sockaddr
  · rw [if_pos h1]
    left
    exact ⟨Or.inl rfl, rfl⟩
  · rw [if_neg h1]
    by_cases h2 : sa.family = AF_INET
    · rw [if_pos h2]
      have ha : sockaddr_alen sa = 4 := by unfold sockaddr_alen; rw [if_pos h2]
      rw [ha]
      rcases stun_append_addr_tail_spec msg msize type 1 4 sa.port sa.addr4 hsz with
        ⟨hv, hb⟩ | ⟨hv, hl, hal⟩
      · left; exact ⟨Or.inr (Or.inr hv), hb⟩
      · right; exact ⟨hv, hl, hal⟩
    · rw [if_neg h2]
      by_cases h3 : sa.family = AF_INET6
      · rw [if_pos h3]
        by_cases h4 : addrlen < sizeof_sockaddr_in6
        · rw [if_pos h4]
          left
          exact ⟨Or.inl rfl, rfl⟩
        · rw [if_neg h4]
          have ha : sockaddr_alen sa = 16 := by unfold sockaddr_alen; rw [if_neg h2]
          rw [ha]
          rcases stun_append_addr_tail_spec msg msize type 2 16 sa.port sa.addr6 hsz with
            ⟨hv, hb⟩ | ⟨hv, hl, hal⟩
          · left; exact ⟨Or.inr (Or.inr hv), hb⟩
          · right; exact ⟨hv, hl, hal⟩
      · rw [if_neg h3]
        left
        exact ⟨Or.inr (Or.inl rfl), rfl⟩

/-- The XOR transform returns 0, `EINVAL` or `EAFNOSUPPORT`, and preserves
the address family. -/
theorem stun_xor_address_cases (msg : List Nat) (sa : CSockaddr) (addrlen : Nat) :
    ((stun_xor_address msg sa addrlen).1 = 0 ∨
     (stun_xor_address msg sa addrlen).1 = EINVAL ∨
     (stun_xor_address msg sa addrlen).1 = EAFNOSUPPORT) ∧
    (stun_xor_address msg sa addrlen).2.family = sa.family := by
  unfold stun_xor_address
  by_cases h1 : addrlen < sizeof_sockaddr
  · rw [if_pos h1]
    exact ⟨Or.inr (Or.inl rfl), rfl⟩
  · rw [if_neg h1]
    by_cases h2 : sa.family = AF_INET
    · rw [if_pos h2]
      exact ⟨Or.inl rfl, rfl⟩
    · rw [if_neg h2]
      by_cases h3 : sa.family = AF_INET6
      · rw [if_pos h3]
        by_cases h4 : addrlen < sizeof_sockaddr_in6
        · rw [if_pos h4]
          exact ⟨Or.inr (Or.inl rfl), rfl⟩
        · rw [if_neg h4]
          exact ⟨Or.inl rfl, rfl⟩
      · rw [if_neg h3]
        exact ⟨Or.inr (Or.inr rfl), rfl⟩

theorem stun_append_xor_addr_spec (msg : List Nat) (msize type : Nat)
    (sa : CSockaddr) (addrlen : Nat) (hsz : msize ≤ msg.length) :
    AddrAppendOk msg sa (stun_append_xor_addr msg msize type sa addrlen) := by
  unfold stun_append_xor_addr
  dsimp only
  obtain ⟨hcases, hfam⟩ := stun_xor_address_cases msg sa addrlen
  by_cases hv : (stun_xor_address msg sa addrlen).1 ≠ 0
  · rw [if_pos hv]
    left
    refine ⟨?_, rfl⟩
    rcases hcases with h | h | h
    · exact absurd h hv
    · exact Or.inl h
    · exact Or.inr (Or.inl h)
  · rw [if_neg hv]
    have halen : sockaddr_alen (stun_xor_address msg sa addrlen).2 =
        sockaddr_alen sa := by
      unfold sockaddr_alen
      rw [hfam]
    have := stun_append_addr_spec msg msize type
      (stun_xor_address msg sa addrlen).2 addrlen hsz
    unfold AddrAppendOk at this ⊢
    rwa [halen] at this

/-- C3 (amended). Every attribute append — the `stun_append` primitive and
every typed appender built on it — either fails leaving the buffer, hence
the header length field, unchanged (with no-buffer-space, `NULL` /
`ENOBUFS`, the only failure of the primitive and of the bytes, flag, u32,
u64, string and error appenders, while the two address appenders can also
fail with `EINVAL` or `EAFNOSUPPORT` before touching the buffer), or
succeeds and advances the header length field by exactly
`4 + length + pad_len length`, so a 4-aligned length field stays 4-aligned. -/
theorem stun_append_advance (msg : List Nat) (msize type length v64 code : Nat)
    (data : List Nat) (s : String) (sa : CSockaddr) (addrlen : Nat)
    (hsz : msize ≤ msg.length) :
    ((stun_append msg msize type length).1 = none →
      (stun_append msg msize type length).2 = msg) ∧
    ((stun_append msg msize type length).1.isSome →
      stun_length (stun_append msg msize type length).2 =
        stun_length msg + 4 + length + stun_padding length ∧
      (stun_length msg % 4 = 0 →
        stun_length (stun_append msg msize type length).2 % 4 = 0)) ∧
    AppendOk msg data.length (stun_append_bytes msg msize type data) ∧
    AppendOk msg 0 (stun_append_flag msg msize type) ∧
    AppendOk msg 4 (stun_append32 msg msize type v64) ∧
    AppendOk msg 8 (stun_append64 msg msize type v64) ∧
    AppendOk msg (strBytes s).length (stun_append_string msg msize type s) ∧
    AppendOk msg (4 + (strBytes (stun_strerror code)).length)
      (stun_append_error msg msize code) ∧
    AddrAppendOk msg sa (stun_append_addr msg msize type sa addrlen) ∧
    AddrAppendOk msg sa (stun_append_xor_addr msg msize type sa addrlen) := by
  refine ⟨?_, ?_, appendOk_of_bytes msg msize type data hsz,
    appendOk_of_bytes msg msize type [] hsz,
    appendOk_of_bytes msg msize type (be32 (v64 % 4294967296)) hsz,
    appendOk_of_bytes msg msize type
      (be32 (v64 / 4294967296 % 4294967296) ++ be32 (v64 % 4294967296)) hsz,
    appendOk_of_bytes msg msize type (strBytes s) hsz,
    appendOk_error msg msize code hsz,
    stun_append_addr_spec msg msize type sa addrlen hsz,
    stun_append_xor_addr_spec msg msize type sa addrlen hsz⟩
  · intro hnone
    rcases stun_append_spec msg msize type length hsz with ⟨heq, _⟩ |
      ⟨m', heq, _, _, _, _, _, _, _⟩
    · rw [heq]
    · rw [heq] at hnone
      simp at hnone
  · intro hsome
    rcases stun_append_spec msg msize type length hsz with ⟨heq, _⟩ |
      ⟨m', heq, _, _, hlen, _, _, _, _⟩
    · rw [heq] at hsome
      simp at hsome
    · rw [heq]
      refine ⟨hlen, fun h4 => ?_⟩
      have := stun_padding_mod length
      simp only
      omega

/-- C3 counterexample: `stun_append_addr` can fail with `EAFNOSUPPORT`
(family 5) or `EINVAL` (8-byte socket-address length), neither of which is
success or the claimed no-buffer-space failure, so the original
"NULL / ENOBUFS or success" dichotomy does not hold for every typed
appender built on `stun_append`. -/
theorem stun_append_addr_errno_cex :
    (stun_append_addr (List.replicate 64 0) 64 0x0001
      (CSockaddr.mk 5 [0, 0] [0, 0, 0, 0] (List.replicate 16 0)) 16).1 =
      EAFNOSUPPORT ∧
    (stun_append_addr (List.replicate 64 0) 64 0x0001
      (CSockaddr.mk 2 [0, 0] [0, 0, 0, 0] (List.replicate 16 0)) 8).1 = EINVAL ∧
    EAFNOSUPPORT ≠ 0 ∧ EAFNOSUPPORT ≠ ENOBUFS ∧ EINVAL ≠ 0 ∧
    EINVAL ≠ ENOBUFS := by
  decide

/-- C3 witness: the dichotomy instantiated on a fresh 32-byte buffer. -/
theorem stun_append_advance_witness :
    (32 : Nat) ≤ (List.replicate 32 (0 : Nat)).length ∧
    AppendOk (List.replicate 32 0) 0
      (stun_append_flag (List.replicate 32 0) 32 STUN_USERNAME) :=
  ⟨by decide, (stun_append_advance (List.replicate 32 0) 32 STUN_USERNAME 0 0 0 [] ""
    (CSockaddr.mk 0 [0, 0] [0, 0, 0, 0] (List.replicate 16 0)) 16
    (by decide)).2.2.2.1⟩

/-- C4 (amended): `stun_append` fails with no buffer space exactly when
`mlen + 24 + length > min msize STUN_MAXMSG`.  The `+24` margin accounts
for the 20-byte header plus this attribute's own 4-byte TLV header; it does
not guarantee that a later MESSAGE-INTEGRITY reservation by the finish
step succeeds. -/
theorem stun_append_fail_iff (msg : List Nat) (msize type length : Nat) :
    (stun_append msg msize type length).1 = none ↔
      stun_length msg + 24 + length > min msize STUN_MAXMSG := by
  unfold stun_append
  by_cases h : stun_length msg + 24 + length > min msize STUN_MAXMSG
  · rw [if_pos h]
    exact iff_of_true rfl h
  · rw [if_neg h]
    exact iff_of_false (by simp) h

/-- C4 counterexample: on a 28-byte buffer an append succeeds, yet the
MESSAGE-INTEGRITY reservation performed by `stun_finish_long` then fails
for lack of room, so the `+24` margin does not make `finish` infallible. -/
theorem stun_append_margin_cex :
    (stun_append (List.replicate 28 0) 28 STUN_USERNAME 0).1.isSome = true ∧
    (stun_finish_long (stun_append (List.replicate 28 0) 28 STUN_USERNAME 0).2 28
      none none (some [7]) none).ret = ENOBUFS := by
  constructor
  · decide
  · decide

/-! ### Header initialization (claim C5) -/

set_option maxRecDepth 4000 in
/-- Decode-of-encode for class REQUEST, with the method split into its
high and low six bits so the case enumeration stays shallow. -/
theorem request_type_decode_aux : ∀ hi : Nat, hi < 64 → ∀ lo : Nat, lo < 64 →
    stun_type_byte0 STUN_REQUEST (hi * 64 + lo) < 256 ∧
    stun_type_byte1 STUN_REQUEST (hi * 64 + lo) < 256 ∧
    classOfW (stun_type_byte0 STUN_REQUEST (hi * 64 + lo) * 256 +
      stun_type_byte1 STUN_REQUEST (hi * 64 + lo)) = STUN_REQUEST ∧
    methodOfW (stun_type_byte0 STUN_REQUEST (hi * 64 + lo) * 256 +
      stun_type_byte1 STUN_REQUEST (hi * 64 + lo)) = hi * 64 + lo := by
  decide

/-- For every 12-bit method, the two REQUEST type bytes are genuine bytes
and decode back to class REQUEST and the same method. -/
theorem request_type_decode : ∀ m : Nat, m < 4096 →
    stun_type_byte0 STUN_REQUEST m < 256 ∧ stun_type_byte1 STUN_REQUEST m < 256 ∧
    classOfW (stun_type_byte0 STUN_REQUEST m * 256 + stun_type_byte1 STUN_REQUEST m) =
      STUN_REQUEST ∧
    methodOfW (stun_type_byte0 STUN_REQUEST m * 256 + stun_type_byte1 STUN_REQUEST m) =
      m := by
  intro m hm
  have := request_type_decode_aux (m / 64) (by omega) (m % 64) (by omega)
  rwa [show m / 64 * 64 + m % 64 = m by omega] at this

/-- C5. After `stun_init_request` with a method in `[0, 0xFFF]`: the length
field (bytes 2..3) is zero, bytes 4..7 are the magic cookie
`21 12 A4 42`, the two type bytes carry the RFC 5389 encoding of class
REQUEST and the method, and they decode back to exactly that class and
method. -/
theorem stun_init_request_header (buf id : List Nat) (m : Nat)
    (hm : m < 4096) (hbuf : 20 ≤ buf.length) :
    getb (stun_init_request buf m id) 2 = 0 ∧
    getb (stun_init_request buf m id) 3 = 0 ∧
    stun_length (stun_init_request buf m id) = 0 ∧
    getb (stun_init_request buf m id) 4 = 0x21 ∧
    getb (stun_init_request buf m id) 5 = 0x12 ∧
    getb (stun_init_request buf m id) 6 = 0xA4 ∧
    getb (stun_init_request buf m id) 7 = 0x42 ∧
    getb (stun_init_request buf m id) 0 = stun_type_byte0 STUN_REQUEST m ∧
    getb (stun_init_request buf m id) 1 = stun_type_byte1 STUN_REQUEST m ∧
    stun_get_class (stun_init_request buf m id) = STUN_REQUEST ∧
    stun_get_method (stun_init_request buf m id) = m := by
  obtain ⟨hB0, hB1, hC, hM⟩ := request_type_decode m hm
  unfold stun_init_request stun_init
  set W8 := writeBytes buf 0 [0, 0, 0, 0, 0x21, 0x12, 0xA4, 0x42] with hW8
  have hW8len : W8.length = buf.length := by rw [hW8]; exact length_writeBytes _ _ _
  set T := stun_set_type W8 STUN_REQUEST m with hT
  have hTlen : T.length = buf.length := by
    rw [hT]; unfold stun_set_type; rw [length_writeBytes, hW8len]
  set b := writeBytes T 8 (id.take 12) with hb
  have hlow : ∀ j, j < 8 → getb b j = getb T j := by
    intro j hj
    rw [hb]
    exact getb_writeBytes_of_lt _ _ _ _ hj
  have hcookie : ∀ j v : Nat, 2 ≤ j → j < 8 →
      [0, 0, 0, 0, 0x21, 0x12, 0xA4, 0x42].getD j 0 % 256 = v → getb b j = v := by
    intro j v hj2 hj8 hv
    rw [hlow j hj8, hT]
    unfold stun_set_type
    rw [getb_writeBytes_of_ge _ _ _ _ (by simp; omega), hW8]
    have := getb_writeBytes_get [0, 0, 0, 0, 0x21, 0x12, 0xA4, 0x42] buf 0 j
      (by simp; omega) (by omega)
    rw [List.getD_eq_getElem?_getD] at hv
    simpa [hv] using this
  have h2 : getb b 2 = 0 := hcookie 2 0 (by omega) (by omega) (by norm_num)
  have h3 : getb b 3 = 0 := hcookie 3 0 (by omega) (by omega) (by norm_num)
  have h4 : getb b 4 = 0x21 := hcookie 4 0x21 (by omega) (by omega) (by norm_num)
  have h5 : getb b 5 = 0x12 := hcookie 5 0x12 (by omega) (by omega) (by norm_num)
  have h6 : getb b 6 = 0xA4 := hcookie 6 0xA4 (by omega) (by omega) (by norm_num)
  have h7 : getb b 7 = 0x42 := hcookie 7 0x42 (by omega) (by omega) (by norm_num)
  have hb0 : getb b 0 = stun_type_byte0 STUN_REQUEST m := by
    rw [hlow 0 (by omega), hT]
    unfold stun_set_type
    have := getb_writeBytes_get
      [stun_type_byte0 STUN_REQUEST m, stun_type_byte1 STUN_REQUEST m] W8 0 0
      (by norm_num) (by omega)
    simpa [Nat.mod_eq_of_lt hB0] using this
  have hb1 : getb b 1 = stun_type_byte1 STUN_REQUEST m := by
    rw [hlow 1 (by omega), hT]
    unfold stun_set_type
    have := getb_writeBytes_get
      [stun_type_byte0 STUN_REQUEST m, stun_type_byte1 STUN_REQUEST m] W8 0 1
      (by norm_num) (by omega)
    simpa [Nat.mod_eq_of_lt hB1] using this
  have hlen0 : stun_length b = 0 := by
    unfold stun_length readW
    rw [show (2 : Nat) + 1 = 3 from rfl, h2, h3]
  have hgetw : stun_getw b =
      stun_type_byte0 STUN_REQUEST m * 256 + stun_type_byte1 STUN_REQUEST m := by
    unfold stun_getw readW
    rw [show (0 : Nat) + 1 = 1 from rfl, hb0, hb1]
  refine ⟨h2, h3, hlen0, h4, h5, h6, h7, hb0, hb1, ?_, ?_⟩
  · unfold stun_get_class
    rw [hgetw]
    exact hC
  · unfold stun_get_method
    rw [hgetw]
    exact hM

/-! ### HMAC input of `stun_sha1` (claim C1) -/

/-- C1 (amended): with `stun_length msg ≥ 32`, `stun_sha1` produces the
20-byte HMAC-SHA1, keyed with `key`, of exactly the first
`stun_length msg − 12` bytes of the message; since the MESSAGE-INTEGRITY
attribute begins at offset `20 + (stun_length msg − 32)`, which equals
`stun_length msg − 12`, that prefix excludes the whole MESSAGE-INTEGRITY
attribute — its 4-byte TLV header included, not just its 20-byte payload. -/
theorem stun_sha1_hmac_input (msg key : List Nat) (h32 : 32 ≤ stun_length msg) :
    stun_sha1 msg key = some (hmacSha1 key (msg.take (stun_length msg - 12))) ∧
    (hmacSha1 key (msg.take (stun_length msg - 12))).length = 20 ∧
    20 + (stun_length msg - 32) = stun_length msg - 12 := by
  refine ⟨?_, hmacSha1_length _ _, by omega⟩
  unfold stun_sha1
  rw [if_pos h32]

/-- C1 witness: the amended statement instantiated on the concrete
finished message `msgMI`. -/
theorem stun_sha1_hmac_input_witness :
    32 ≤ stun_length msgMI ∧
    stun_sha1 msgMI (strBytes "pass") =
      some (hmacSha1 (strBytes "pass") (msgMI.take (stun_length msgMI - 12))) :=
  ⟨by decide, (stun_sha1_hmac_input msgMI (strBytes "pass") (by decide)).1⟩

set_option maxRecDepth 20000 in
/-- C1 counterexample: in `msgMI` the MESSAGE-INTEGRITY attribute begins at
offset 20 while the code hashes only the first `stun_length − 12 = 20`
bytes, so the HMAC input contains no byte of that attribute; hashing the
prefix that the claim describes — everything up to the attribute's 20-byte
payload, i.e. the first `stun_length − 8` bytes — yields a different MAC. -/
theorem stun_sha1_mi_excluded_cex :
    readW msgMI 20 = STUN_MESSAGE_INTEGRITY ∧
    stun_length msgMI - 12 = 20 ∧
    stun_sha1 msgMI (strBytes "pass") ≠
      some (hmacSha1 (strBytes "pass") (msgMI.take (stun_length msgMI - 8))) := by
  refine ⟨by decide, by decide, by decide⟩

/-- C5 witness: the header property instantiated for the BINDING method on
a zeroed 20-byte buffer. -/
theorem stun_init_request_header_witness :
    (1 : Nat) < 4096 ∧ (20 : Nat) ≤ (List.replicate 20 (0 : Nat)).length ∧
    stun_get_method (stun_init_request (List.replicate 20 0) 1 (List.replicate 12 0)) = 1 :=
  ⟨by decide, by decide,
    (stun_init_request_header (List.replicate 20 0) (List.replicate 12 0) 1
      (by decide) (by decide)).2.2.2.2.2.2.2.2.2.2⟩

/-! ### The ERROR-CODE payload (claim C6) -/

/-- Every reason phrase in the catalog, and the default, is ASCII. -/
theorem strerror_bytes_lt (code : Nat) :
    ∀ b ∈ strBytes (stun_strerror code), b < 256 := by
  unfold stun_strerror
  rcases hf : errTab.find? (fun p => p.1 == code) with _ | p
  · rw [hf]
    decide
  · have hp := List.mem_of_find?_eq_some hf
    have hall : ∀ q ∈ errTab, ∀ b ∈ strBytes q.2, b < 256 := by decide
    rw [hf]
    show ∀ b ∈ strBytes p.2, b < 256
    exact hall p hp

/-- C6. Whenever `stun_append_error` succeeds, the ERROR-CODE payload it
wrote is two zero bytes, one byte `code / 100`, one byte `code % 100`,
then the catalog reason phrase with no NUL terminator ("Unknown error"
being what `stun_strerror` yields for codes outside the catalog). -/
theorem stun_append_error_payload (msg : List Nat) (msize code : Nat)
    (hsz : msize ≤ msg.length) (hcode : code < 800)
    (h0 : (stun_append_error msg msize code).1 = 0) :
    readBytes (stun_append_error msg msize code).2 (24 + stun_length msg)
      (4 + (strBytes (stun_strerror code)).length) =
    [0, 0, code / 100, code % 100] ++ strBytes (stun_strerror code) := by
  unfold stun_append_error at h0 ⊢
  dsimp only at h0 ⊢
  rcases stun_append_spec msg msize STUN_ERROR_CODE
      (4 + (strBytes (stun_strerror code)).length) hsz with ⟨heq, _⟩ |
    ⟨m', heq, hov, hN, hlen, hty, hlw, hfr, hpay⟩
  · rw [heq] at h0
    dsimp only at h0
    exact absurd h0 (by decide)
  · rw [heq]
    dsimp only
    have e1 : writeBytes m' (24 + stun_length msg)
        ([0, 0] ++ ([code / 100, code % 100] ++ strBytes (stun_strerror code))) =
        writeBytes (writeBytes m' (24 + stun_length msg) [0, 0])
          (24 + stun_length msg + 2)
          ([code / 100, code % 100] ++ strBytes (stun_strerror code)) := by
      rw [writeBytes_append]
      simp
    have e2 : writeBytes (writeBytes m' (24 + stun_length msg) [0, 0])
        (24 + stun_length msg + 2)
        ([code / 100, code % 100] ++ strBytes (stun_strerror code)) =
        writeBytes (writeBytes (writeBytes m' (24 + stun_length msg) [0, 0])
          (24 + stun_length msg + 2) [code / 100, code % 100])
          (24 + stun_length msg + 2 + 2) (strBytes (stun_strerror code)) := by
      rw [writeBytes_append]
      simp
    have ecomb : writeBytes (writeBytes (writeBytes m' (24 + stun_length msg) [0, 0])
        (24 + stun_length msg + 2) [code / 100, code % 100])
        (24 + stun_length msg + 4) (strBytes (stun_strerror code)) =
        writeBytes m' (24 + stun_length msg)
          ([0, 0] ++ ([code / 100, code % 100] ++ strBytes (stun_strerror code))) := by
      rw [e1, e2, show 24 + stun_length msg + 2 + 2 = 24 + stun_length msg + 4 by omega]
    rw [ecomb]
    have hMAX : STUN_MAXMSG = 65515 := rfl
    have hmin := min_le_left msize STUN_MAXMSG
    have hin : 24 + stun_length msg +
        ([0, 0] ++ ([code / 100, code % 100] ++ strBytes (stun_strerror code))).length ≤
        m'.length := by
      simp only [List.length_append, List.length_cons, List.length_nil]
      omega
    have hlenlist : 4 + (strBytes (stun_strerror code)).length =
        ([0, 0] ++ ([code / 100, code % 100] ++ strBytes (stun_strerror code))).length := by
      simp
      omega
    rw [hlenlist, readBytes_writeBytes _ _ _ hin]
    simp only [List.map_append]
    have hq : code / 100 < 256 := by omega
    have hr : code % 100 < 256 := by omega
    have hzz : ([0, 0] : List Nat).map (· % 256) = [0, 0] := by decide
    have hqr : ([code / 100, code % 100] : List Nat).map (· % 256) =
        [code / 100, code % 100] := by
      simp [Nat.mod_eq_of_lt hq, Nat.mod_eq_of_lt hr]
    have hstr : (strBytes (stun_strerror code)).map (· % 256) =
        strBytes (stun_strerror code) := by
      have := strerror_bytes_lt code
      calc (strBytes (stun_strerror code)).map (· % 256) =
          (strBytes (stun_strerror code)).map id := by
            apply List.map_congr_left
            intro b hb
            exact Nat.mod_eq_of_lt (this b hb)
        _ = strBytes (stun_strerror code) := List.map_id _
    rw [hzz, hqr, hstr]
    simp

/-- C6 witness: `stun_init_error` with code 401 on a fresh 64-byte buffer —
the payload begins `00 00 04 01` followed by the ASCII bytes of
"Authorization required". -/
theorem stun_append_error_payload_witness :
    (stun_init_error ansErr 64 reqBinding 401).1 = 0 ∧
    readBytes (stun_init_error ansErr 64 reqBinding 401).2
      (24 + stun_length (stun_init ansErr STUN_ERROR (stun_get_method reqBinding)
        (stun_id reqBinding)))
      (4 + (strBytes (stun_strerror 401)).length) =
      [0, 0, 401 / 100, 401 % 100] ++ strBytes (stun_strerror 401) ∧
    [0, 0, 401 / 100, 401 % 100] ++ strBytes (stun_strerror 401) =
      [0, 0, 4, 1] ++ strBytes "Authorization required" :=
  ⟨by decide,
   stun_append_error_payload
     (stun_init ansErr STUN_ERROR (stun_get_method reqBinding) (stun_id reqBinding))
     64 401 (by decide) (by decide) (by decide),
   by decide⟩

/-! ### The address value type (claims C8, C9, C10) -/

theorem ntohl_be32 (v : Nat) : ntohl_bytes (be32 v) = v % 4294967296 := by
  unfold ntohl_bytes be32
  simp only [List.getD_cons_zero, List.getD_cons_succ]
  omega

theorem ntohs_htons (v : Nat) : ntohs (htons v) = v % 65536 := by
  unfold ntohs htons
  simp only [List.getD_cons_zero, List.getD_cons_succ]
  omega

theorem ntohl_bytes_lt (b : List Nat) : ntohl_bytes b < 4294967296 := by
  unfold ntohl_bytes
  have h0 : b.getD 0 0 % 256 < 256 := Nat.mod_lt _ (by omega)
  have h1 : b.getD 1 0 % 256 < 256 := Nat.mod_lt _ (by omega)
  have h2 : b.getD 2 0 % 256 < 256 := Nat.mod_lt _ (by omega)
  have h3 : b.getD 3 0 % 256 < 256 := Nat.mod_lt _ (by omega)
  omega

/-- C8. For every address whose variant is set, copying it out to a
socket-address structure and reading it back into any fresh address gives
an address `equal` to the original (same tag, same address bytes, same
port). -/
theorem nice_address_sockaddr_roundtrip (a a0 : NiceAddress) (sin0 : CSockaddr)
    (hp : a.port < 65536) (h4 : a.addr_ipv4 < 4294967296)
    (h6len : a.addr_ipv6.length = 16) (h6b : ∀ x ∈ a.addr_ipv6, x < 256) :
    ∃ a', nice_address_set_from_sockaddr a0 (nice_address_copy_to_sockaddr a sin0) =
        some a' ∧ nice_address_equal a a' = true := by
  have h6all : (a.addr_ipv6.take 16).map (· % 256) = a.addr_ipv6 := by
    rw [List.take_of_length_le (by omega)]
    calc a.addr_ipv6.map (· % 256) = a.addr_ipv6.map id := by
          apply List.map_congr_left
          intro x hx
          exact Nat.mod_eq_of_lt (h6b x hx)
      _ = a.addr_ipv6 := List.map_id _
  cases hat : a.type
  case ipv4 =>
      unfold nice_address_copy_to_sockaddr
      rw [hat]
      dsimp only
      unfold nice_address_set_from_sockaddr
      rw [if_pos rfl]
      refine ⟨_, rfl, ?_⟩
      unfold nice_address_equal nice_address_set_ipv4
      rw [hat]
      dsimp only
      rw [if_neg (by simp)]
      have hv : ntohl_bytes (be32 (a.addr_ipv4 % 4294967296)) % 4294967296 =
          a.addr_ipv4 := by
        rw [ntohl_be32]
        omega
      have hpv : ntohs (htons (a.port % 65536)) = a.port := by
        rw [ntohs_htons]
        omega
      simp [hv, hpv]
  case ipv6 =>
      unfold nice_address_copy_to_sockaddr
      rw [hat]
      dsimp only
      unfold nice_address_set_from_sockaddr
      rw [if_neg (by dsimp only; decide), if_pos rfl]
      refine ⟨_, rfl, ?_⟩
      unfold nice_address_equal nice_address_set_ipv6
      rw [hat]
      dsimp only
      rw [if_neg (by simp)]
      have hpv : ntohs (htons (a.port % 65536)) = a.port := by
        rw [ntohs_htons]
        omega
      rw [h6all]
      simp [hpv, h6all]

/-- C8 witness: the round trip on a concrete IPv4 address 10.0.0.1:3478. -/
theorem nice_address_sockaddr_roundtrip_witness :
    (NiceAddress.mk .ipv4 0x0A000001 (List.replicate 16 0) 3478).port < 65536 ∧
    ∃ a', nice_address_set_from_sockaddr
        (NiceAddress.mk .ipv4 0 (List.replicate 16 0) 0)
        (nice_address_copy_to_sockaddr
          (NiceAddress.mk .ipv4 0x0A000001 (List.replicate 16 0) 3478)
          (CSockaddr.mk 0 [0, 0] [0, 0, 0, 0] (List.replicate 16 0))) = some a' ∧
      nice_address_equal (NiceAddress.mk .ipv4 0x0A000001 (List.replicate 16 0) 3478)
        a' = true :=
  ⟨by decide,
   nice_address_sockaddr_roundtrip
     (NiceAddress.mk .ipv4 0x0A000001 (List.replicate 16 0) 3478)
     (NiceAddress.mk .ipv4 0 (List.replicate 16 0) 0)
     (CSockaddr.mk 0 [0, 0] [0, 0, 0, 0] (List.replicate 16 0))
     (by decide) (by decide) (by decide) (by decide)⟩

/-- C9. `nice_address_set_ipv4_from_string` returns TRUE exactly when the
string parses as a dotted quad; on success the address becomes IPv4
holding the parsed host-order value with the port (and the IPv6 storage)
untouched, and on failure the whole address is returned unchanged. -/
theorem set_ipv4_from_string_spec (a : NiceAddress) (s : String) :
    ((nice_address_set_ipv4_from_string a s).1 = true ↔
      (inet_aton s).isSome = true) ∧
    (∀ b, inet_aton s = some b →
      (nice_address_set_ipv4_from_string a s).2.type = NiceAddressType.ipv4 ∧
      (nice_address_set_ipv4_from_string a s).2.addr_ipv4 = ntohl_bytes b ∧
      (nice_address_set_ipv4_from_string a s).2.port = a.port ∧
      (nice_address_set_ipv4_from_string a s).2.addr_ipv6 = a.addr_ipv6) ∧
    ((nice_address_set_ipv4_from_string a s).1 = false →
      (nice_address_set_ipv4_from_string a s).2 = a) := by
  unfold nice_address_set_ipv4_from_string
  rcases h : inet_aton s with _ | b
  · dsimp only
    exact ⟨by simp, fun b hb => by simp at hb, fun _ => rfl⟩
  · dsimp only
    refine ⟨by simp, fun b' hb' => ?_, fun hf => by simp at hf⟩
    obtain rfl : b = b' := Option.some.inj hb'
    unfold nice_address_set_ipv4
    exact ⟨rfl, Nat.mod_eq_of_lt (ntohl_bytes_lt b), rfl, rfl⟩

/-- C9 witness: a valid and an invalid string. -/
theorem set_ipv4_from_string_spec_witness :
    (nice_address_set_ipv4_from_string
      (NiceAddress.mk .ipv6 0 (List.replicate 16 0) 9) "192.168.1.1").1 = true ∧
    (nice_address_set_ipv4_from_string
      (NiceAddress.mk .ipv6 0 (List.replicate 16 0) 9) "192.168.1.1").2.port = 9 :=
  ⟨((set_ipv4_from_string_spec (NiceAddress.mk .ipv6 0 (List.replicate 16 0) 9)
      "192.168.1.1").1).mpr (by decide),
   ((set_ipv4_from_string_spec (NiceAddress.mk .ipv6 0 (List.replicate 16 0) 9)
      "192.168.1.1").2.1 [192, 168, 1, 1] (by decide)).2.2.1⟩

/-- C10. `nice_address_set_ipv4` and `nice_address_set_ipv6` write only the
discriminator and their own address payload: the port (and the other
variant's storage) is preserved, so port and address can be set in either
order. -/
theorem set_addr_preserves_port (a : NiceAddress) (v p : Nat) (b : List Nat) :
    (nice_address_set_ipv4 a v).port = a.port ∧
    (nice_address_set_ipv4 a v).addr_ipv6 = a.addr_ipv6 ∧
    (nice_address_set_ipv4 a v).type = NiceAddressType.ipv4 ∧
    (nice_address_set_ipv6 a b).port = a.port ∧
    (nice_address_set_ipv6 a b).addr_ipv4 = a.addr_ipv4 ∧
    (nice_address_set_ipv6 a b).type = NiceAddressType.ipv6 ∧
    nice_address_set_ipv4 { a with port := p } v =
      { (nice_address_set_ipv4 a v) with port := p } ∧
    nice_address_set_ipv6 { a with port := p } b =
      { (nice_address_set_ipv6 a b) with port := p } :=
  ⟨rfl, rfl, rfl, rfl, rfl, rfl, rfl, rfl⟩

end LibniceStun
